import Mathlib

/-!
Verification of the online intent-inference belief updaters
(`util/predictors.py`): a forgetting Bayesian filter, a MaxEnt filter and a
linear-chain CRF filter over `N` policy hypotheses and a discrete action
space of size `A`.  Python floats are modelled as real numbers; numpy
arrays indexed by `range(n)` as functions `Fin n → ℝ`; the mutable
`self` object as an explicit state passed in and returned.
-/

noncomputable section

namespace SAI

/-- The three-line numerically-stable normalization idiom that recurs in
the source (`x -= max; np.exp(x); x /= sum`): subtract the max entry,
exponentiate, divide by the sum. -/
def stableNorm {n : ℕ} [NeZero n] (v : Fin n → ℝ) : Fin n → ℝ :=
  let m := Finset.univ.sup' Finset.univ_nonempty v
  fun i => Real.exp (v i - m) / ∑ j, Real.exp (v j - m)

/-- Max-subtraction cancels: `stableNorm` is the plain softmax-style
normalization `exp (v i) / ∑ exp (v j)`. -/
theorem stableNorm_eq {n : ℕ} [NeZero n] (v : Fin n → ℝ) (i : Fin n) :
    stableNorm v i = Real.exp (v i) / ∑ j, Real.exp (v j) := by
  unfold stableNorm
  set m := Finset.univ.sup' Finset.univ_nonempty v with hm
  have hs : ∑ j, Real.exp (v j - m) = (∑ j, Real.exp (v j)) / Real.exp m := by
    rw [Finset.sum_div]
    exact Finset.sum_congr rfl fun j _ => by rw [Real.exp_sub]
  have hpos : (0:ℝ) < ∑ j, Real.exp (v j) :=
    Finset.sum_pos (fun j _ => Real.exp_pos _) Finset.univ_nonempty
  rw [hs, Real.exp_sub, div_div_div_cancel_right₀ (Real.exp_ne_zero m)]

theorem stableNorm_pos {n : ℕ} [NeZero n] (v : Fin n → ℝ) (i : Fin n) :
    0 < stableNorm v i := by
  rw [stableNorm_eq]
  exact div_pos (Real.exp_pos _)
    (Finset.sum_pos (fun j _ => Real.exp_pos _) Finset.univ_nonempty)

theorem stableNorm_sum_one {n : ℕ} [NeZero n] (v : Fin n → ℝ) :
    ∑ i, stableNorm v i = 1 := by
  have hpos : (0:ℝ) < ∑ j, Real.exp (v j) :=
    Finset.sum_pos (fun j _ => Real.exp_pos _) Finset.univ_nonempty
  rw [Finset.sum_congr rfl fun i _ => stableNorm_eq v i, ← Finset.sum_div,
    div_self hpos.ne']

/-! ### The Bayesian predictor (`BayesianPredictor` in `util/predictors.py`)

`S` is the (opaque) environment-state type, `N` the number of policy
hypotheses (`len(policies)`), `A` the discrete action-space size
(`action_space_size`).  A policy object is modelled by its
`get_q_value : S → Fin A → ℝ` table.  The Python defaults are
`tau=0.8, eps=1e-3` at construction and `alpha=0.05, p_switch=0.02,
beta=1` per `update` call. -/

structure BayesianPredictor (S : Type) (N A : ℕ) where
  policies : Fin N → S → Fin A → ℝ
  tau : ℝ
  eps : ℝ
  log_post : Fin N → ℝ

/-- `BayesianPredictor.__init__`: `prior = none` models the default
`prior=None`, giving the uniform prior `np.ones(N)/N`; the stored belief
is `np.log(prior + 1e-12)`. -/
def BayesianPredictor.init {S : Type} {N A : ℕ}
    (policies : Fin N → S → Fin A → ℝ) (tau eps : ℝ)
    (prior : Option (Fin N → ℝ)) : BayesianPredictor S N A :=
  { policies, tau, eps,
    log_post := fun i => Real.log ((prior.getD fun _ => 1 / (N:ℝ)) i + 1e-12) }

/-- `BayesianPredictor.log_likelihood`: softmax over temperature-scaled
Q-values, then the log of the observed action's probability plus the
`1e-8` floor. -/
def BayesianPredictor.log_likelihood {S : Type} {N A : ℕ} [NeZero A]
    (P : BayesianPredictor S N A) (state : S) (user_action : Fin A)
    (policy : S → Fin A → ℝ) : ℝ :=
  let Q : Fin A → ℝ := fun a => policy state a
  let logits : Fin A → ℝ := fun a => Q a / P.tau
  let probs := stableNorm logits
  Real.log (probs user_action + 1e-8)

/-- `BayesianPredictor.update`, with its per-call hyperparameters
`alpha`, `p_switch`, `beta` (Python defaults `0.05`, `0.02`, `1`).
Returns the belief the method returns together with the mutated object. -/
def BayesianPredictor.update {S : Type} {N A : ℕ} [NeZero N] [NeZero A]
    (P : BayesianPredictor S N A) (state : S) (user_action : Fin A)
    (alpha p_switch beta : ℝ) : (Fin N → ℝ) × BayesianPredictor S N A :=
  let log_likes : Fin N → ℝ := fun i =>
    P.log_likelihood state user_action (P.policies i)
  let lp : Fin N → ℝ := fun i => (1 - alpha) * P.log_post i + alpha * log_likes i
  let post1 := stableNorm lp
  let post2 : Fin N → ℝ :=
    if 0 < p_switch then
      fun i => (1 - p_switch) * post1 i + p_switch * (1 / (N:ℝ))
    else post1
  let post3 : Fin N → ℝ :=
    if beta ≠ 1 then
      fun i => post2 i ^ (1/beta) / ∑ j, post2 j ^ (1/beta)
    else post2
  let post4 : Fin N → ℝ := fun i => (1 - P.eps) * post3 i + P.eps * (1 / (N:ℝ))
  (post4, { P with log_post := fun i => Real.log (post4 i + 1e-12) })

/-- `BayesianPredictor.get_prob`: re-normalize the stored log-belief;
the method assigns nothing, so the returned object is `P` itself. -/
def BayesianPredictor.get_prob {S : Type} {N : ℕ} {A : ℕ} [NeZero N]
    (P : BayesianPredictor S N A) : (Fin N → ℝ) × BayesianPredictor S N A :=
  (stableNorm P.log_post, P)

/-! ### The MaxEnt predictor (`MaxEntPredictor`)

Python defaults `tau=0.8, eps=1e-2` at construction, `alpha=0.5` per
`update` call; the log floor in `log_likelihood` is `1e-12` here. -/

structure MaxEntPredictor (S : Type) (N A : ℕ) where
  policies : Fin N → S → Fin A → ℝ
  tau : ℝ
  eps : ℝ
  log_post : Fin N → ℝ

/-- `MaxEntPredictor.__init__`: uniform belief `np.log(ones/N + 1e-12)`. -/
def MaxEntPredictor.init {S : Type} {N A : ℕ}
    (policies : Fin N → S → Fin A → ℝ) (tau eps : ℝ) : MaxEntPredictor S N A :=
  { policies, tau, eps, log_post := fun _ => Real.log (1 / (N:ℝ) + 1e-12) }

/-- `MaxEntPredictor.log_likelihood` (floor `1e-12`). -/
def MaxEntPredictor.log_likelihood {S : Type} {N A : ℕ} [NeZero A]
    (P : MaxEntPredictor S N A) (state : S) (user_action : Fin A)
    (policy : S → Fin A → ℝ) : ℝ :=
  let Q : Fin A → ℝ := fun a => policy state a
  let logits : Fin A → ℝ := fun a => Q a / P.tau
  let probs := stableNorm logits
  Real.log (probs user_action + 1e-12)

/-- `MaxEntPredictor.update`: normalize the likelihoods and the stored
belief into probability space and blend them convexly, then smooth. -/
def MaxEntPredictor.update {S : Type} {N A : ℕ} [NeZero N] [NeZero A]
    (P : MaxEntPredictor S N A) (state : S) (user_action : Fin A)
    (alpha : ℝ) : (Fin N → ℝ) × MaxEntPredictor S N A :=
  let log_likes : Fin N → ℝ := fun i =>
    P.log_likelihood state user_action (P.policies i)
  let likes := stableNorm log_likes
  let post0 := stableNorm P.log_post
  let post1 : Fin N → ℝ := fun i => (1 - alpha) * post0 i + alpha * likes i
  let post2 : Fin N → ℝ := fun i => (1 - P.eps) * post1 i + P.eps * (1 / (N:ℝ))
  (post2, { P with log_post := fun i => Real.log (post2 i + 1e-12) })

/-- `MaxEntPredictor.get_prob`. -/
def MaxEntPredictor.get_prob {S : Type} {N A : ℕ} [NeZero N]
    (P : MaxEntPredictor S N A) : (Fin N → ℝ) × MaxEntPredictor S N A :=
  (stableNorm P.log_post, P)

/-! ### The CRF predictor (`CRFPredictor`)

The temporal context `prev_action` stores the raw Python integer that
was passed to `update` (`self.prev_action = user_action`), so it is an
`Option ℤ`, `none` standing for Python's `None`.  Python defaults:
`eps=0.01, tau=0.8, pairwise_weight=0.3, alpha=0.05, p_switch=0.02,
beta=1.0`. -/

structure CRFPredictor (S : Type) (N A : ℕ) where
  policies : Fin N → S → Fin A → ℝ
  eps : ℝ
  tau : ℝ
  pairwise_weight : ℝ
  alpha : ℝ
  p_switch : ℝ
  beta : ℝ
  log_post : Fin N → ℝ
  prev_action : Option ℤ

/-- `CRFPredictor.__init__`. -/
def CRFPredictor.init {S : Type} {N A : ℕ}
    (policies : Fin N → S → Fin A → ℝ)
    (eps tau pairwise_weight alpha p_switch beta : ℝ) : CRFPredictor S N A :=
  { policies, eps, tau, pairwise_weight, alpha, p_switch, beta,
    log_post := fun _ => Real.log (1 / (N:ℝ) + 1e-12), prev_action := none }

/-- `CRFPredictor.unary_fn`: `Q / tau`. -/
def CRFPredictor.unary_fn {S : Type} {N A : ℕ} (P : CRFPredictor S N A)
    (policy : S → Fin A → ℝ) (state : S) (action : Fin A) : ℝ :=
  policy state action / P.tau

/-- `CRFPredictor.pairwise_fn`: `pairwise_weight` when the raw previous
action equals the candidate action, else `0`. -/
def CRFPredictor.pairwise_fn {S : Type} {N A : ℕ} (P : CRFPredictor S N A)
    (prev_a a : ℤ) : ℝ :=
  if prev_a = a then P.pairwise_weight else 0

/-- `CRFPredictor.log_likelihood`: per-action logit = unary potential +
pairwise potential against the stored previous action (`0` when there is
none), softmax, log of the observed action's probability plus `1e-12`. -/
def CRFPredictor.log_likelihood {S : Type} {N A : ℕ} [NeZero A]
    (P : CRFPredictor S N A) (state : S) (user_action : Fin A)
    (policy : S → Fin A → ℝ) : ℝ :=
  let logits : Fin A → ℝ := fun a =>
    let unary := P.unary_fn policy state a
    let pair : ℝ :=
      match P.prev_action with
      | none => 0
      | some pa => P.pairwise_fn pa (a : ℤ)
    unary + pair
  let probs := stableNorm logits
  Real.log (probs user_action + 1e-12)

/-- `CRFPredictor.update`: the Bayesian pipeline driven by the stored
hyperparameter fields, followed by `self.prev_action = user_action`. -/
def CRFPredictor.update {S : Type} {N A : ℕ} [NeZero N] [NeZero A]
    (P : CRFPredictor S N A) (state : S) (user_action : Fin A) :
    (Fin N → ℝ) × CRFPredictor S N A :=
  let log_likes : Fin N → ℝ := fun i =>
    P.log_likelihood state user_action (P.policies i)
  let lp : Fin N → ℝ := fun i =>
    (1 - P.alpha) * P.log_post i + P.alpha * log_likes i
  let post1 := stableNorm lp
  let post2 : Fin N → ℝ :=
    if 0 < P.p_switch then
      fun i => (1 - P.p_switch) * post1 i + P.p_switch * (1 / (N:ℝ))
    else post1
  let post3 : Fin N → ℝ :=
    if P.beta ≠ 1 then
      fun i => post2 i ^ (1/P.beta) / ∑ j, post2 j ^ (1/P.beta)
    else post2
  let post4 : Fin N → ℝ := fun i => (1 - P.eps) * post3 i + P.eps * (1 / (N:ℝ))
  (post4, { P with log_post := fun i => Real.log (post4 i + 1e-12),
                   prev_action := some (user_action : ℤ) })

/-- `CRFPredictor.get_prob`. -/
def CRFPredictor.get_prob {S : Type} {N A : ℕ} [NeZero N]
    (P : CRFPredictor S N A) : (Fin N → ℝ) × CRFPredictor S N A :=
  (stableNorm P.log_post, P)

/-- `CRFPredictor.reset`: uniform belief, context cleared. -/
def CRFPredictor.reset {S : Type} {N A : ℕ} [NeZero N]
    (P : CRFPredictor S N A) : CRFPredictor S N A :=
  { P with log_post := fun _ => Real.log (1 / (N:ℝ) + 1e-12),
           prev_action := none }

/-! ### The update pipeline, step by step

The spec (§4.2) describes the Bayesian/CRF update as a pipeline of named
steps; the following definitions transcribe those steps so the `update`
methods can be compared against their composition. -/

/-- Spec step "exponential forgetting in log-space":
`log_belief ← (1-alpha)·log_belief + alpha·log_likelihoods`. -/
def forgetStep {n : ℕ} (alpha : ℝ) (lp ll : Fin n → ℝ) : Fin n → ℝ :=
  fun i => (1 - alpha) * lp i + alpha * ll i

/-- Convex mixing with the uniform distribution `1/n`. -/
def mixUnif {n : ℕ} (t : ℝ) (q : Fin n → ℝ) : Fin n → ℝ :=
  fun i => (1 - t) * q i + t * (1 / (n:ℝ))

/-- Spec step "goal-switch mixing", guarded as in the source by
`if p_switch > 0`. -/
def switchStep {n : ℕ} (p_switch : ℝ) (q : Fin n → ℝ) : Fin n → ℝ :=
  if 0 < p_switch then mixUnif p_switch q else q

/-- Renormalized posterior temperature `post ** (1/beta)`. -/
def tempNorm {n : ℕ} (beta : ℝ) (q : Fin n → ℝ) : Fin n → ℝ :=
  fun i => q i ^ (1/beta) / ∑ j, q j ^ (1/beta)

/-- Spec step "posterior temperature", guarded as in the source by
`if beta != 1.0`. -/
def tempStep {n : ℕ} (beta : ℝ) (q : Fin n → ℝ) : Fin n → ℝ :=
  if beta ≠ 1 then tempNorm beta q else q

/-- Spec step "safety smoothing": `post ← (1-eps)·post + eps·uniform`. -/
def smoothStep {n : ℕ} (eps : ℝ) (q : Fin n → ℝ) : Fin n → ℝ :=
  mixUnif eps q

/-- The probability-space part of the Bayesian/CRF update pipeline:
goal-switch mixing, posterior temperature, safety smoothing. -/
def postPipeline {n : ℕ} (eps p_switch beta : ℝ) (q : Fin n → ℝ) : Fin n → ℝ :=
  smoothStep eps (tempStep beta (switchStep p_switch q))

/-- The returned belief of a Bayesian update is exactly the pipeline
applied to the max-subtract normalization of the forgetting blend. -/
theorem bayes_update_decomp {S : Type} {N A : ℕ} [NeZero N] [NeZero A]
    (P : BayesianPredictor S N A) (s : S) (a : Fin A) (alpha p_switch beta : ℝ) :
    (P.update s a alpha p_switch beta).1 =
      postPipeline P.eps p_switch beta
        (stableNorm (forgetStep alpha P.log_post
          (fun i => P.log_likelihood s a (P.policies i)))) := rfl

/-- The CRF update returns the same pipeline driven by its stored
hyperparameter fields. -/
theorem crf_update_decomp {S : Type} {N A : ℕ} [NeZero N] [NeZero A]
    (P : CRFPredictor S N A) (s : S) (a : Fin A) :
    (P.update s a).1 =
      postPipeline P.eps P.p_switch P.beta
        (stableNorm (forgetStep P.alpha P.log_post
          (fun i => P.log_likelihood s a (P.policies i)))) := rfl

/-! ### Simplex invariants -/

/-- A strictly positive probability vector summing to one. -/
def PosSimplex {n : ℕ} (q : Fin n → ℝ) : Prop :=
  (∀ i, 0 < q i) ∧ ∑ i, q i = 1

theorem natCast_pos_of_neZero (n : ℕ) [NeZero n] : (0:ℝ) < n := by
  exact_mod_cast Nat.pos_of_ne_zero (NeZero.ne n)

theorem posSimplex_stableNorm {n : ℕ} [NeZero n] (v : Fin n → ℝ) :
    PosSimplex (stableNorm v) :=
  ⟨stableNorm_pos v, stableNorm_sum_one v⟩

theorem convex_pos {t x y : ℝ} (ht0 : 0 ≤ t) (ht1 : t ≤ 1)
    (hx : 0 < x) (hy : 0 < y) : 0 < (1 - t) * x + t * y := by
  rcases eq_or_lt_of_le ht0 with h | h
  · simp [← h, hx]
  · exact add_pos_of_nonneg_of_pos (mul_nonneg (by linarith) hx.le) (mul_pos h hy)

theorem posSimplex_mixUnif {n : ℕ} [NeZero n] {t : ℝ} {q : Fin n → ℝ}
    (hq : PosSimplex q) (ht0 : 0 ≤ t) (ht1 : t ≤ 1) :
    PosSimplex (mixUnif t q) := by
  have hn : (0:ℝ) < n := natCast_pos_of_neZero n
  constructor
  · exact fun i => convex_pos ht0 ht1 (hq.1 i) (by positivity)
  · unfold mixUnif
    rw [Finset.sum_add_distrib, ← Finset.mul_sum, hq.2, Finset.sum_const,
      Finset.card_univ, Fintype.card_fin, nsmul_eq_mul]
    field_simp

theorem posSimplex_tempNorm {n : ℕ} [NeZero n] {q : Fin n → ℝ}
    (hq : PosSimplex q) (beta : ℝ) : PosSimplex (tempNorm beta q) := by
  have hsum : (0:ℝ) < ∑ j, q j ^ (1/beta) :=
    Finset.sum_pos (fun j _ => Real.rpow_pos_of_pos (hq.1 j) _) Finset.univ_nonempty
  constructor
  · exact fun i => div_pos (Real.rpow_pos_of_pos (hq.1 i) _) hsum
  · unfold tempNorm
    rw [← Finset.sum_div, div_self hsum.ne']

theorem posSimplex_switchStep {n : ℕ} [NeZero n] {ps : ℝ} {q : Fin n → ℝ}
    (hq : PosSimplex q) (h0 : 0 ≤ ps) (h1 : ps ≤ 1) :
    PosSimplex (switchStep ps q) := by
  unfold switchStep
  split
  · exact posSimplex_mixUnif hq h0 h1
  · exact hq

theorem posSimplex_tempStep {n : ℕ} [NeZero n] {beta : ℝ} {q : Fin n → ℝ}
    (hq : PosSimplex q) : PosSimplex (tempStep beta q) := by
  unfold tempStep
  split
  · exact posSimplex_tempNorm hq beta
  · exact hq

theorem posSimplex_postPipeline {n : ℕ} [NeZero n]
    {eps ps beta : ℝ} {q : Fin n → ℝ} (hq : PosSimplex q)
    (heps0 : 0 ≤ eps) (heps1 : eps ≤ 1) (hps0 : 0 ≤ ps) (hps1 : ps ≤ 1) :
    PosSimplex (postPipeline eps ps beta q) :=
  posSimplex_mixUnif (posSimplex_tempStep (posSimplex_switchStep hq hps0 hps1))
    heps0 heps1

/-- In a positive simplex over at least two entries, every entry is
strictly below one. -/
theorem PosSimplex.lt_one {n : ℕ} {q : Fin n → ℝ} (h : PosSimplex q)
    (hn : 2 ≤ n) (i : Fin n) : q i < 1 := by
  haveI : Nontrivial (Fin n) := Fin.nontrivial_iff_two_le.mpr hn
  obtain ⟨j, hj⟩ := exists_ne i
  have hsplit : q i + ∑ k ∈ Finset.univ.erase i, q k = 1 := by
    rw [Finset.add_sum_erase _ _ (Finset.mem_univ i), h.2]
  have hpos : 0 < ∑ k ∈ Finset.univ.erase i, q k :=
    Finset.sum_pos (fun k _ => h.1 k)
      ⟨j, Finset.mem_erase.mpr ⟨hj, Finset.mem_univ j⟩⟩
  linarith

theorem posSimplex_convex {n : ℕ} {t : ℝ} {p q : Fin n → ℝ}
    (hp : PosSimplex p) (hq : PosSimplex q) (h0 : 0 ≤ t) (h1 : t ≤ 1) :
    PosSimplex (fun i => (1 - t) * p i + t * q i) := by
  constructor
  · exact fun i => convex_pos h0 h1 (hp.1 i) (hq.1 i)
  · rw [Finset.sum_add_distrib, ← Finset.mul_sum, ← Finset.mul_sum, hp.2, hq.2]
    ring

/-- The MaxEnt update returns the smoothed convex blend of the
normalized stored belief and the normalized likelihoods. -/
theorem maxent_update_decomp {S : Type} {N A : ℕ} [NeZero N] [NeZero A]
    (P : MaxEntPredictor S N A) (s : S) (a : Fin A) (alpha : ℝ) :
    (P.update s a alpha).1 =
      mixUnif P.eps (fun i =>
        (1 - alpha) * stableNorm P.log_post i +
          alpha * stableNorm (fun j => P.log_likelihood s a (P.policies j)) i) := rfl

theorem bayes_update_simplex {S : Type} {N A : ℕ} [NeZero N] [NeZero A]
    (P : BayesianPredictor S N A) (s : S) (a : Fin A) (alpha ps beta : ℝ)
    (he0 : 0 ≤ P.eps) (he1 : P.eps ≤ 1) (hp0 : 0 ≤ ps) (hp1 : ps ≤ 1) :
    PosSimplex (P.update s a alpha ps beta).1 := by
  rw [bayes_update_decomp]
  exact posSimplex_postPipeline (posSimplex_stableNorm _) he0 he1 hp0 hp1

theorem maxent_update_simplex {S : Type} {N A : ℕ} [NeZero N] [NeZero A]
    (P : MaxEntPredictor S N A) (s : S) (a : Fin A) (alpha : ℝ)
    (he0 : 0 ≤ P.eps) (he1 : P.eps ≤ 1) (ha0 : 0 ≤ alpha) (ha1 : alpha ≤ 1) :
    PosSimplex (P.update s a alpha).1 := by
  rw [maxent_update_decomp]
  exact posSimplex_mixUnif
    (posSimplex_convex (posSimplex_stableNorm _) (posSimplex_stableNorm _) ha0 ha1)
    he0 he1

theorem crf_update_simplex {S : Type} {N A : ℕ} [NeZero N] [NeZero A]
    (P : CRFPredictor S N A) (s : S) (a : Fin A)
    (he0 : 0 ≤ P.eps) (he1 : P.eps ≤ 1) (hp0 : 0 ≤ P.p_switch)
    (hp1 : P.p_switch ≤ 1) : PosSimplex (P.update s a).1 := by
  rw [crf_update_decomp]
  exact posSimplex_postPipeline (posSimplex_stableNorm _) he0 he1 hp0 hp1

/-! ### Running an updater over a finite observation sequence

`runUpdates` calls `update` once per observation and keeps the belief the
last call returned (starting value: the current `get_prob`, never read
when the sequence is nonempty). -/

def BayesianPredictor.runUpdates {S : Type} {N A : ℕ} [NeZero N] [NeZero A]
    (alpha ps beta : ℝ) (P : BayesianPredictor S N A)
    (obs : List (S × Fin A)) : (Fin N → ℝ) × BayesianPredictor S N A :=
  obs.foldl (fun st o => st.2.update o.1 o.2 alpha ps beta) (P.get_prob.1, P)

def MaxEntPredictor.runUpdates {S : Type} {N A : ℕ} [NeZero N] [NeZero A]
    (alpha : ℝ) (P : MaxEntPredictor S N A)
    (obs : List (S × Fin A)) : (Fin N → ℝ) × MaxEntPredictor S N A :=
  obs.foldl (fun st o => st.2.update o.1 o.2 alpha) (P.get_prob.1, P)

def CRFPredictor.runUpdates {S : Type} {N A : ℕ} [NeZero N] [NeZero A]
    (P : CRFPredictor S N A) (obs : List (S × Fin A)) :
    (Fin N → ℝ) × CRFPredictor S N A :=
  obs.foldl (fun st o => st.2.update o.1 o.2) (P.get_prob.1, P)

theorem bayes_run_simplex {S : Type} {N A : ℕ} [NeZero N] [NeZero A]
    (alpha ps beta : ℝ) (hp0 : 0 ≤ ps) (hp1 : ps ≤ 1)
    (obs : List (S × Fin A)) :
    ∀ (b0 : Fin N → ℝ) (P : BayesianPredictor S N A), obs ≠ [] →
      0 ≤ P.eps → P.eps ≤ 1 →
      PosSimplex
        (obs.foldl (fun st o => st.2.update o.1 o.2 alpha ps beta) (b0, P)).1 := by
  induction obs with
  | nil => exact fun b0 P h _ _ => absurd rfl h
  | cons o rest IH =>
    intro b0 P _ he0 he1
    rw [List.foldl_cons]
    cases rest with
    | nil =>
      simpa using bayes_update_simplex P o.1 o.2 alpha ps beta he0 he1 hp0 hp1
    | cons o2 rest2 =>
      exact IH (P.update o.1 o.2 alpha ps beta).1
        (P.update o.1 o.2 alpha ps beta).2 (by simp) he0 he1

theorem maxent_run_simplex {S : Type} {N A : ℕ} [NeZero N] [NeZero A]
    (alpha : ℝ) (ha0 : 0 ≤ alpha) (ha1 : alpha ≤ 1) (obs : List (S × Fin A)) :
    ∀ (b0 : Fin N → ℝ) (P : MaxEntPredictor S N A), obs ≠ [] →
      0 ≤ P.eps → P.eps ≤ 1 →
      PosSimplex (obs.foldl (fun st o => st.2.update o.1 o.2 alpha) (b0, P)).1 := by
  induction obs with
  | nil => exact fun b0 P h _ _ => absurd rfl h
  | cons o rest IH =>
    intro b0 P _ he0 he1
    rw [List.foldl_cons]
    cases rest with
    | nil => simpa using maxent_update_simplex P o.1 o.2 alpha he0 he1 ha0 ha1
    | cons o2 rest2 =>
      exact IH (P.update o.1 o.2 alpha).1 (P.update o.1 o.2 alpha).2
        (by simp) he0 he1

theorem crf_run_simplex {S : Type} {N A : ℕ} [NeZero N] [NeZero A]
    (obs : List (S × Fin A)) :
    ∀ (b0 : Fin N → ℝ) (P : CRFPredictor S N A), obs ≠ [] →
      0 ≤ P.eps → P.eps ≤ 1 → 0 ≤ P.p_switch → P.p_switch ≤ 1 →
      PosSimplex (obs.foldl (fun st o => st.2.update o.1 o.2) (b0, P)).1 := by
  induction obs with
  | nil => exact fun b0 P h _ _ _ _ => absurd rfl h
  | cons o rest IH =>
    intro b0 P _ he0 he1 hp0 hp1
    rw [List.foldl_cons]
    cases rest with
    | nil => simpa using crf_update_simplex P o.1 o.2 he0 he1 hp0 hp1
    | cons o2 rest2 =>
      exact IH (P.update o.1 o.2).1 (P.update o.1 o.2).2 (by simp) he0 he1 hp0 hp1

/-! ### Concrete instances

The spec's concrete scenario (§8): two hypotheses over two actions,
hypothesis 0 valuing the actions `(1,0)` and hypothesis 1 valuing them
`(0,1)`, `tau = 0.8`, and the Python default hyperparameters. -/

def polTwo : Fin 2 → Unit → Fin 2 → ℝ := fun i _ a => if a = i then 1 else 0

def bayesTwo : BayesianPredictor Unit 2 2 :=
  BayesianPredictor.init polTwo 0.8 1e-3 none

def maxentTwo : MaxEntPredictor Unit 2 2 := MaxEntPredictor.init polTwo 0.8 1e-2

def crfTwo : CRFPredictor Unit 2 2 :=
  CRFPredictor.init polTwo 0.01 0.8 0.3 0.05 0.02 1

/-- A degenerate updater with a single hypothesis (`N = 1`). -/
def polOne : Fin 1 → Unit → Fin 1 → ℝ := fun _ _ _ => 0

def bayesOne : BayesianPredictor Unit 1 1 :=
  BayesianPredictor.init polOne 0.8 1e-3 none

/-! ### C3: the returned belief is a valid simplex -/

theorem PosSimplex.conclusion {n : ℕ} {q : Fin n → ℝ} (h : PosSimplex q)
    (hn : 2 ≤ n) :
    (∀ i, q i ∈ Set.Ioo (0:ℝ) 1) ∧ |(∑ i, q i) - 1| ≤ 1e-6 :=
  ⟨fun i => Set.mem_Ioo.mpr ⟨h.1 i, h.lt_one hn i⟩, by rw [h.2]; norm_num⟩

/-- **C3** (amended: at least two hypotheses).  For every updater with
`N ≥ 2` hypotheses and in-range hyperparameters, and every finite
nonempty sequence of valid observations, the vector returned by the
last `update` has every entry strictly in `(0,1)` and sums to within
`1e-6` of `1`.  (With `N = 1` the claim fails: see
`single_hypothesis_entry_eq_one`.) -/
theorem update_returns_valid_simplex {S : Type} {N A : ℕ} [NeZero N] [NeZero A]
    (hN : 2 ≤ N) :
    (∀ (P : BayesianPredictor S N A) (alpha ps beta : ℝ)
        (obs : List (S × Fin A)), obs ≠ [] →
        0 ≤ P.eps → P.eps ≤ 1 → 0 ≤ ps → ps ≤ 1 →
        (∀ i, (BayesianPredictor.runUpdates alpha ps beta P obs).1 i ∈
            Set.Ioo (0:ℝ) 1) ∧
          |(∑ i, (BayesianPredictor.runUpdates alpha ps beta P obs).1 i) - 1|
            ≤ 1e-6) ∧
    (∀ (P : MaxEntPredictor S N A) (alpha : ℝ) (obs : List (S × Fin A)),
        obs ≠ [] → 0 ≤ P.eps → P.eps ≤ 1 → 0 ≤ alpha → alpha ≤ 1 →
        (∀ i, (MaxEntPredictor.runUpdates alpha P obs).1 i ∈
            Set.Ioo (0:ℝ) 1) ∧
          |(∑ i, (MaxEntPredictor.runUpdates alpha P obs).1 i) - 1| ≤ 1e-6) ∧
    (∀ (P : CRFPredictor S N A) (obs : List (S × Fin A)), obs ≠ [] →
        0 ≤ P.eps → P.eps ≤ 1 → 0 ≤ P.p_switch → P.p_switch ≤ 1 →
        (∀ i, (CRFPredictor.runUpdates P obs).1 i ∈ Set.Ioo (0:ℝ) 1) ∧
          |(∑ i, (CRFPredictor.runUpdates P obs).1 i) - 1| ≤ 1e-6) := by
  refine ⟨fun P alpha ps beta obs hne he0 he1 hp0 hp1 => ?_,
    fun P alpha obs hne he0 he1 ha0 ha1 => ?_,
    fun P obs hne he0 he1 hp0 hp1 => ?_⟩
  · exact (bayes_run_simplex alpha ps beta hp0 hp1 obs P.get_prob.1 P hne
      he0 he1).conclusion hN
  · exact (maxent_run_simplex alpha ha0 ha1 obs P.get_prob.1 P hne
      he0 he1).conclusion hN
  · exact (crf_run_simplex obs P.get_prob.1 P hne he0 he1 hp0 hp1).conclusion hN

/-- Witness for C3 at the concrete two-hypothesis Bayesian updater and a
one-observation sequence, with the Python default hyperparameters. -/
theorem update_returns_valid_simplex_witness :
    (∀ i, (BayesianPredictor.runUpdates 0.05 0.02 1 bayesTwo [((), 0)]).1 i ∈
        Set.Ioo (0:ℝ) 1) ∧
      |(∑ i, (BayesianPredictor.runUpdates 0.05 0.02 1 bayesTwo [((), 0)]).1 i)
        - 1| ≤ 1e-6 :=
  (update_returns_valid_simplex (by norm_num)).1 bayesTwo 0.05 0.02 1 [((), 0)]
    (List.cons_ne_nil _ _) (show (0:ℝ) ≤ 1e-3 by norm_num)
    (show (1e-3:ℝ) ≤ 1 by norm_num) (by norm_num) (by norm_num)

/-- Counterexample to C3 as stated: with a single hypothesis (`N = 1`,
a legal construction) the belief returned by `update` is the vector
`[1.0]`, whose entry is not strictly inside `(0,1)`. -/
theorem single_hypothesis_entry_eq_one :
    (bayesOne.update () 0 0.05 0.02 1).1 0 = 1 := by
  have h := bayes_update_simplex bayesOne () 0 0.05 0.02 1
    (show (0:ℝ) ≤ 1e-3 by norm_num) (show (1e-3:ℝ) ≤ 1 by norm_num)
    (by norm_num) (by norm_num)
  have hs := h.2
  rwa [Fin.sum_univ_one] at hs

/-! ### C7: the smoothing floor `eps/N` -/

theorem bayes_update_floor {S : Type} {N A : ℕ} [NeZero N] [NeZero A]
    (P : BayesianPredictor S N A) (s : S) (a : Fin A) (alpha ps beta : ℝ)
    (he1 : P.eps ≤ 1) (hp0 : 0 ≤ ps) (hp1 : ps ≤ 1) (i : Fin N) :
    P.eps / N ≤ (P.update s a alpha ps beta).1 i := by
  rw [bayes_update_decomp]
  have hX : PosSimplex (tempStep beta (switchStep ps (stableNorm
      (forgetStep alpha P.log_post
        fun j => P.log_likelihood s a (P.policies j))))) :=
    posSimplex_tempStep (posSimplex_switchStep (posSimplex_stableNorm _) hp0 hp1)
  have h1 : 0 ≤ (1 - P.eps) * tempStep beta (switchStep ps (stableNorm
      (forgetStep alpha P.log_post
        fun j => P.log_likelihood s a (P.policies j)))) i :=
    mul_nonneg (by linarith) (hX.1 i).le
  show P.eps / N ≤ (1 - P.eps) * _ + P.eps * (1 / (N:ℝ))
  rw [mul_one_div]
  linarith

theorem maxent_update_floor {S : Type} {N A : ℕ} [NeZero N] [NeZero A]
    (P : MaxEntPredictor S N A) (s : S) (a : Fin A) (alpha : ℝ)
    (he1 : P.eps ≤ 1) (ha0 : 0 ≤ alpha) (ha1 : alpha ≤ 1) (i : Fin N) :
    P.eps / N ≤ (P.update s a alpha).1 i := by
  rw [maxent_update_decomp]
  have hX : PosSimplex (fun j =>
      (1 - alpha) * stableNorm P.log_post j +
        alpha * stableNorm (fun k => P.log_likelihood s a (P.policies k)) j) :=
    posSimplex_convex (posSimplex_stableNorm _) (posSimplex_stableNorm _) ha0 ha1
  have h1 : 0 ≤ (1 - P.eps) *
      ((1 - alpha) * stableNorm P.log_post i +
        alpha * stableNorm (fun k => P.log_likelihood s a (P.policies k)) i) :=
    mul_nonneg (by linarith) (hX.1 i).le
  show P.eps / N ≤ (1 - P.eps) * _ + P.eps * (1 / (N:ℝ))
  rw [mul_one_div]
  linarith

theorem bayes_run_floor {S : Type} {N A : ℕ} [NeZero N] [NeZero A]
    (alpha ps beta : ℝ) (hp0 : 0 ≤ ps) (hp1 : ps ≤ 1)
    (obs : List (S × Fin A)) :
    ∀ (b0 : Fin N → ℝ) (P : BayesianPredictor S N A), obs ≠ [] →
      P.eps ≤ 1 → ∀ i, P.eps / N ≤
        (obs.foldl (fun st o => st.2.update o.1 o.2 alpha ps beta) (b0, P)).1 i := by
  induction obs with
  | nil => exact fun b0 P h _ => absurd rfl h
  | cons o rest IH =>
    intro b0 P _ he1 i
    rw [List.foldl_cons]
    cases rest with
    | nil => simpa using bayes_update_floor P o.1 o.2 alpha ps beta he1 hp0 hp1 i
    | cons o2 rest2 =>
      exact IH (P.update o.1 o.2 alpha ps beta).1
        (P.update o.1 o.2 alpha ps beta).2 (by simp) he1 i

theorem maxent_run_floor {S : Type} {N A : ℕ} [NeZero N] [NeZero A]
    (alpha : ℝ) (ha0 : 0 ≤ alpha) (ha1 : alpha ≤ 1) (obs : List (S × Fin A)) :
    ∀ (b0 : Fin N → ℝ) (P : MaxEntPredictor S N A), obs ≠ [] →
      P.eps ≤ 1 → ∀ i, P.eps / N ≤
        (obs.foldl (fun st o => st.2.update o.1 o.2 alpha) (b0, P)).1 i := by
  induction obs with
  | nil => exact fun b0 P h _ => absurd rfl h
  | cons o rest IH =>
    intro b0 P _ he1 i
    rw [List.foldl_cons]
    cases rest with
    | nil => simpa using maxent_update_floor P o.1 o.2 alpha he1 ha0 ha1 i
    | cons o2 rest2 =>
      exact IH (P.update o.1 o.2 alpha).1 (P.update o.1 o.2 alpha).2
        (by simp) he1 i

/-- **C7** (confirmed).  For the Bayesian and MaxEnt updaters with
in-range hyperparameters, after any nonempty observation sequence no
entry of the returned belief falls below `eps/N`. -/
theorem belief_floor_eps_div_N {S : Type} {N A : ℕ} [NeZero N] [NeZero A] :
    (∀ (P : BayesianPredictor S N A) (alpha ps beta : ℝ)
        (obs : List (S × Fin A)), obs ≠ [] → P.eps ≤ 1 → 0 ≤ ps → ps ≤ 1 →
        ∀ i, P.eps / N ≤ (BayesianPredictor.runUpdates alpha ps beta P obs).1 i) ∧
    (∀ (P : MaxEntPredictor S N A) (alpha : ℝ) (obs : List (S × Fin A)),
        obs ≠ [] → P.eps ≤ 1 → 0 ≤ alpha → alpha ≤ 1 →
        ∀ i, P.eps / N ≤ (MaxEntPredictor.runUpdates alpha P obs).1 i) :=
  ⟨fun P alpha ps beta obs hne he1 hp0 hp1 i =>
      bayes_run_floor alpha ps beta hp0 hp1 obs P.get_prob.1 P hne he1 i,
    fun P alpha obs hne he1 ha0 ha1 i =>
      maxent_run_floor alpha ha0 ha1 obs P.get_prob.1 P hne he1 i⟩

/-- Witness for C7 at the concrete MaxEnt updater: after one default
update no entry is below `eps/N = 1e-2/2`. -/
theorem belief_floor_eps_div_N_witness :
    maxentTwo.eps / 2 ≤
      (MaxEntPredictor.runUpdates 0.5 maxentTwo [((), 0)]).1 0 :=
  belief_floor_eps_div_N.2 maxentTwo 0.5 [((), 0)] (List.cons_ne_nil _ _)
    (show (1e-2:ℝ) ≤ 1 by norm_num) (by norm_num) (by norm_num) 0

/-! ### C2: `reset` (only the CRF updater has one) -/

theorem stableNorm_const {n : ℕ} [NeZero n] (c : ℝ) :
    stableNorm (fun _ : Fin n => c) = fun _ => 1 / (n:ℝ) := by
  funext i
  rw [stableNorm_eq]
  rw [Finset.sum_const, Finset.card_univ, Fintype.card_fin, nsmul_eq_mul,
    mul_comm, ← div_div, div_self (Real.exp_ne_zero c)]

/-- The CRF part of C2: `reset` makes `get_prob` report the exact
uniform distribution, clears the previous-action context, and the next
likelihood computation uses purely unary logits (zero pairwise
contribution for every action).  `BayesianPredictor` and
`MaxEntPredictor` define no `reset` at all, so the "every one of the
three updaters" part of the claim fails against the code. -/
theorem crf_reset_uniform_and_clears_context {S : Type} {N A : ℕ}
    [NeZero N] [NeZero A] (P : CRFPredictor S N A) :
    P.reset.get_prob.1 = (fun _ => 1 / (N:ℝ)) ∧
    P.reset.prev_action = none ∧
    ∀ (s : S) (u : Fin A) (pol : S → Fin A → ℝ),
      P.reset.log_likelihood s u pol =
        Real.log (stableNorm (fun a => pol s a / P.tau) u + 1e-12) := by
  refine ⟨?_, rfl, ?_⟩
  · show stableNorm (fun _ => Real.log (1 / (N:ℝ) + 1e-12)) = _
    exact stableNorm_const _
  · intro s u pol
    show Real.log (stableNorm (fun a => pol s a / P.tau + 0) u + 1e-12) = _
    have h : (fun a : Fin A => pol s a / P.tau + 0) =
        fun a : Fin A => pol s a / P.tau := by
      funext a; rw [add_zero]
    rw [h]

/-- Witness for the CRF part of C2 at the concrete updater. -/
theorem crf_reset_uniform_witness :
    crfTwo.reset.get_prob.1 = (fun _ => 1 / ((2:ℕ):ℝ)) ∧
    crfTwo.reset.prev_action = none ∧
    ∀ (s : Unit) (u : Fin 2) (pol : Unit → Fin 2 → ℝ),
      crfTwo.reset.log_likelihood s u pol =
        Real.log (stableNorm (fun a => pol s a / crfTwo.tau) u + 1e-12) :=
  crf_reset_uniform_and_clears_context crfTwo

/-! ### C9: `get_prob` renormalizes and mutates nothing -/

/-- **C9** (confirmed).  For every updater, `get_prob` returns the
renormalization of the stored log-belief — the max-subtraction cancels,
leaving exactly `exp (log_post i) / ∑ exp (log_post j)` — and leaves the
object (log-belief and, for CRF, previous-action context) unchanged, so
two consecutive calls return equal vectors. -/
theorem get_prob_renormalizes_and_mutates_nothing {S : Type} {N A : ℕ}
    [NeZero N] [NeZero A] :
    (∀ P : BayesianPredictor S N A,
      (∀ i, P.get_prob.1 i =
        Real.exp (P.log_post i) / ∑ j, Real.exp (P.log_post j)) ∧
      P.get_prob.2 = P ∧ P.get_prob.2.get_prob.1 = P.get_prob.1) ∧
    (∀ P : MaxEntPredictor S N A,
      (∀ i, P.get_prob.1 i =
        Real.exp (P.log_post i) / ∑ j, Real.exp (P.log_post j)) ∧
      P.get_prob.2 = P ∧ P.get_prob.2.get_prob.1 = P.get_prob.1) ∧
    (∀ P : CRFPredictor S N A,
      (∀ i, P.get_prob.1 i =
        Real.exp (P.log_post i) / ∑ j, Real.exp (P.log_post j)) ∧
      P.get_prob.2 = P ∧ P.get_prob.2.prev_action = P.prev_action ∧
      P.get_prob.2.get_prob.1 = P.get_prob.1) :=
  ⟨fun P => ⟨fun i => stableNorm_eq P.log_post i, rfl, rfl⟩,
   fun P => ⟨fun i => stableNorm_eq P.log_post i, rfl, rfl⟩,
   fun P => ⟨fun i => stableNorm_eq P.log_post i, rfl, rfl, rfl⟩⟩

/-- Witness for C9 at the concrete CRF updater. -/
theorem get_prob_renormalizes_witness :
    (∀ i, crfTwo.get_prob.1 i =
      Real.exp (crfTwo.log_post i) / ∑ j, Real.exp (crfTwo.log_post j)) ∧
    crfTwo.get_prob.2 = crfTwo ∧
    crfTwo.get_prob.2.prev_action = crfTwo.prev_action ∧
    crfTwo.get_prob.2.get_prob.1 = crfTwo.get_prob.1 :=
  get_prob_renormalizes_and_mutates_nothing.2.2 crfTwo

/-! ### C6: the CRF temporal context -/

/-- A CRF updater differing from `crfTwo` only in its stored belief. -/
def crfTwoAlt : CRFPredictor Unit 2 2 := { crfTwo with log_post := fun _ => 5 }

/-- **C6** (confirmed).  (1) After an update the previous-action context
holds exactly the just-observed action, and the returned belief is the
pipeline applied to likelihoods computed against the *pre-update* object
(hence against the old context).  (2) `log_likelihood` — and with it the
pairwise potential — depends only on the raw previous action, the
temperature and the pairwise weight, never on the stored belief or the
other hyperparameters.  (3) Without a previous action the logits are
purely unary: the pairwise contribution is zero for every action. -/
theorem crf_temporal_context {S : Type} {N A : ℕ} [NeZero N] [NeZero A] :
    (∀ (P : CRFPredictor S N A) (s : S) (a : Fin A),
      (P.update s a).2.prev_action = some (a : ℤ) ∧
      (P.update s a).1 = postPipeline P.eps P.p_switch P.beta
        (stableNorm (forgetStep P.alpha P.log_post
          (fun i => P.log_likelihood s a (P.policies i))))) ∧
    (∀ P Q : CRFPredictor S N A, P.prev_action = Q.prev_action →
      P.tau = Q.tau → P.pairwise_weight = Q.pairwise_weight →
      ∀ (s : S) (u : Fin A) (pol : S → Fin A → ℝ),
        P.log_likelihood s u pol = Q.log_likelihood s u pol) ∧
    (∀ P : CRFPredictor S N A, P.prev_action = none →
      ∀ (s : S) (u : Fin A) (pol : S → Fin A → ℝ),
        P.log_likelihood s u pol =
          Real.log (stableNorm (fun a => pol s a / P.tau) u + 1e-12)) := by
  refine ⟨fun P s a => ⟨rfl, rfl⟩, ?_, ?_⟩
  · intro P Q hprev htau hw s u pol
    unfold CRFPredictor.log_likelihood CRFPredictor.unary_fn
      CRFPredictor.pairwise_fn
    rw [hprev, htau, hw]
  · intro P hprev s u pol
    unfold CRFPredictor.log_likelihood CRFPredictor.unary_fn
    rw [hprev]
    have h : (fun a : Fin A => pol s a / P.tau + 0) =
        fun a : Fin A => pol s a / P.tau := by
      funext a; rw [add_zero]
    show Real.log (stableNorm (fun a => pol s a / P.tau + 0) u + 1e-12) = _
    rw [h]

/-- Witness for C6: the updated context holds the observed action;
likelihoods ignore the stored belief (`crfTwoAlt` differs from `crfTwo`
only there); with no previous action the logits are purely unary. -/
theorem crf_temporal_context_witness :
    (crfTwo.update () 0).2.prev_action = some ((0 : Fin 2) : ℤ) ∧
    crfTwo.log_likelihood () 0 (polTwo 0) =
      crfTwoAlt.log_likelihood () 0 (polTwo 0) ∧
    crfTwo.log_likelihood () 1 (polTwo 0) =
      Real.log (stableNorm (fun a => polTwo 0 () a / crfTwo.tau) 1 + 1e-12) :=
  ⟨(crf_temporal_context.1 crfTwo () 0).1,
   crf_temporal_context.2.1 crfTwo crfTwoAlt rfl rfl rfl () 0 (polTwo 0),
   crf_temporal_context.2.2 crfTwo rfl () 1 (polTwo 0)⟩

/-! ### C5: pairwise persistence -/

theorem stableNorm_lt_of_lt {n : ℕ} [NeZero n] {v : Fin n → ℝ} {i j : Fin n}
    (h : v i < v j) : stableNorm v i < stableNorm v j := by
  rw [stableNorm_eq, stableNorm_eq]
  have hsum : (0:ℝ) < ∑ k, Real.exp (v k) :=
    Finset.sum_pos (fun k _ => Real.exp_pos _) Finset.univ_nonempty
  exact div_lt_div_of_pos_right (Real.exp_lt_exp.mpr h) hsum

/-- **C5** (confirmed).  With `pairwise_weight > 0` and a hypothesis
whose values at the next state are constant across actions, after an
update observing `k` the next-step log-likelihood of `k` strictly
exceeds that of every other action `j`. -/
theorem crf_pairwise_persistence {S : Type} {N A : ℕ} [NeZero N] [NeZero A]
    (P : CRFPredictor S N A) (hw : 0 < P.pairwise_weight)
    (s s2 : S) (k j : Fin A) (hjk : j ≠ k)
    (pol : S → Fin A → ℝ) (hconst : ∀ a b : Fin A, pol s2 a = pol s2 b) :
    (P.update s k).2.log_likelihood s2 j pol <
      (P.update s k).2.log_likelihood s2 k pol := by
  have hL : ∀ u : Fin A, (P.update s k).2.log_likelihood s2 u pol =
      Real.log (stableNorm (fun a => pol s2 a / P.tau +
        (if (k:ℤ) = (a:ℤ) then P.pairwise_weight else 0)) u + 1e-12) :=
    fun u => rfl
  rw [hL j, hL k]
  apply Real.log_lt_log (add_pos (stableNorm_pos _ _) (by norm_num))
  apply add_lt_add_right
  apply stableNorm_lt_of_lt
  have hne : ((k:ℤ)) ≠ ((j:ℤ)) := by
    intro hh
    exact hjk (Fin.ext (by exact_mod_cast hh)).symm
  rw [if_pos rfl, if_neg hne, hconst j k]
  linarith

/-- Witness for C5 with `crfTwo` (`pairwise_weight = 0.3`) and a
hypothesis that values every action `0`. -/
theorem crf_pairwise_persistence_witness :
    (crfTwo.update () 0).2.log_likelihood () 1 (fun _ _ => 0) <
      (crfTwo.update () 0).2.log_likelihood () 0 (fun _ _ => 0) :=
  crf_pairwise_persistence crfTwo (show (0:ℝ) < 0.3 by norm_num) () () 0 1
    (by decide) (fun _ _ => 0) (fun a b => rfl)

/-! ### C4: the Bayesian update pipeline, step by step -/

/-- **C4** (confirmed).  A Bayesian update is exactly: forgetting blend
in log space, max-subtract normalization, guarded goal-switch mixing,
guarded temperature renormalization, `eps`-smoothing; the log of the
final vector plus the `1e-12` floor is stored, the final vector is
returned, and no other field changes. -/
theorem bayes_update_is_pipeline {S : Type} {N A : ℕ} [NeZero N] [NeZero A]
    (P : BayesianPredictor S N A) (s : S) (a : Fin A) (alpha ps beta : ℝ) :
    (P.update s a alpha ps beta).1 =
      smoothStep P.eps (tempStep beta (switchStep ps
        (stableNorm (forgetStep alpha P.log_post
          (fun i => P.log_likelihood s a (P.policies i)))))) ∧
    (P.update s a alpha ps beta).2.log_post =
      (fun i => Real.log ((P.update s a alpha ps beta).1 i + 1e-12)) ∧
    (P.update s a alpha ps beta).2.policies = P.policies ∧
    (P.update s a alpha ps beta).2.tau = P.tau ∧
    (P.update s a alpha ps beta).2.eps = P.eps :=
  ⟨rfl, rfl, rfl, rfl, rfl⟩

/-- Witness for C4 at the concrete updater with the default
hyperparameters. -/
theorem bayes_update_is_pipeline_witness :
    (bayesTwo.update () 0 0.05 0.02 1).2.log_post =
      (fun i => Real.log ((bayesTwo.update () 0 0.05 0.02 1).1 i + 1e-12)) :=
  (bayes_update_is_pipeline bayesTwo () 0 0.05 0.02 1).2.1

/-! ### C10: integer action indices and Python wrap-around

`probs[user_action]` indexes a length-`A` numpy array with a raw Python
integer.  Modelled from the numpy indexing semantics: an index in
`[0, A)` is taken as is, an index in `[-A, -1]` wraps to `A + index`,
anything else raises `IndexError` (here `none`). -/

def wrapIdx (A : ℕ) (u : ℤ) : Option (Fin A) :=
  if h : 0 ≤ u ∧ u < (A:ℤ) then some ⟨u.toNat, by omega⟩
  else if h2 : -(A:ℤ) ≤ u ∧ u < 0 then some ⟨(u + (A:ℤ)).toNat, by omega⟩
  else none

/-- The in-range action an index in `[-A, -1]` wraps to. -/
def wrapFin (A : ℕ) (u : ℤ) (h1 : -(A:ℤ) ≤ u) (h2 : u < 0) : Fin A :=
  ⟨(u + (A:ℤ)).toNat, by omega⟩

theorem wrapIdx_neg (A : ℕ) (u : ℤ) (h1 : -(A:ℤ) ≤ u) (h2 : u < 0) :
    wrapIdx A u = some (wrapFin A u h1 h2) := by
  unfold wrapIdx wrapFin
  rw [dif_neg (by omega), dif_pos ⟨h1, h2⟩]

theorem wrapIdx_eq_none_iff (A : ℕ) (u : ℤ) :
    wrapIdx A u = none ↔ u < -(A:ℤ) ∨ (A:ℤ) ≤ u := by
  unfold wrapIdx
  constructor
  · intro h
    by_contra hc
    push_neg at hc
    rcases le_or_lt 0 u with h0 | h0
    · rw [dif_pos ⟨h0, hc.2⟩] at h
      exact Option.some_ne_none _ h
    · rw [dif_neg (by omega), dif_pos ⟨by omega, h0⟩] at h
      exact Option.some_ne_none _ h
  · intro h
    rw [dif_neg (by omega), dif_neg (by omega)]

/-- `BayesianPredictor.log_likelihood` on a raw integer action: the same
softmax, indexed through `wrapIdx`. -/
def BayesianPredictor.log_likelihoodZ {S : Type} {N A : ℕ} [NeZero A]
    (P : BayesianPredictor S N A) (state : S) (user_action : ℤ)
    (policy : S → Fin A → ℝ) : Option ℝ :=
  let Q : Fin A → ℝ := fun a => policy state a
  let logits : Fin A → ℝ := fun a => Q a / P.tau
  let probs := stableNorm logits
  (wrapIdx A user_action).map fun ua => Real.log (probs ua + 1e-8)

/-- `BayesianPredictor.update` on a raw integer action.  The action is
only ever used as the index `probs[user_action]` inside the
`log_likelihood` calls, which run before any state is written, so an
out-of-range index aborts with nothing mutated and an in-range one
behaves as the update of the wrapped action. -/
def BayesianPredictor.updateZ {S : Type} {N A : ℕ} [NeZero N] [NeZero A]
    (P : BayesianPredictor S N A) (state : S) (user_action : ℤ)
    (alpha p_switch beta : ℝ) :
    Option ((Fin N → ℝ) × BayesianPredictor S N A) :=
  (wrapIdx A user_action).map fun ua => P.update state ua alpha p_switch beta

/-- `MaxEntPredictor.log_likelihood` on a raw integer action. -/
def MaxEntPredictor.log_likelihoodZ {S : Type} {N A : ℕ} [NeZero A]
    (P : MaxEntPredictor S N A) (state : S) (user_action : ℤ)
    (policy : S → Fin A → ℝ) : Option ℝ :=
  let Q : Fin A → ℝ := fun a => policy state a
  let logits : Fin A → ℝ := fun a => Q a / P.tau
  let probs := stableNorm logits
  (wrapIdx A user_action).map fun ua => Real.log (probs ua + 1e-12)

/-- `MaxEntPredictor.update` on a raw integer action. -/
def MaxEntPredictor.updateZ {S : Type} {N A : ℕ} [NeZero N] [NeZero A]
    (P : MaxEntPredictor S N A) (state : S) (user_action : ℤ) (alpha : ℝ) :
    Option ((Fin N → ℝ) × MaxEntPredictor S N A) :=
  (wrapIdx A user_action).map fun ua => P.update state ua alpha

/-- `CRFPredictor.log_likelihood` on a raw integer action. -/
def CRFPredictor.log_likelihoodZ {S : Type} {N A : ℕ} [NeZero A]
    (P : CRFPredictor S N A) (state : S) (user_action : ℤ)
    (policy : S → Fin A → ℝ) : Option ℝ :=
  let logits : Fin A → ℝ := fun a =>
    let unary := P.unary_fn policy state a
    let pair : ℝ :=
      match P.prev_action with
      | none => 0
      | some pa => P.pairwise_fn pa (a : ℤ)
    unary + pair
  let probs := stableNorm logits
  (wrapIdx A user_action).map fun ua => Real.log (probs ua + 1e-12)

/-- `CRFPredictor.update` on a raw integer action: the belief is the one
of the wrapped action, but `self.prev_action = user_action` stores the
*raw* integer. -/
def CRFPredictor.updateZ {S : Type} {N A : ℕ} [NeZero N] [NeZero A]
    (P : CRFPredictor S N A) (state : S) (user_action : ℤ) :
    Option ((Fin N → ℝ) × CRFPredictor S N A) :=
  (wrapIdx A user_action).map fun ua =>
    let r := P.update state ua
    (r.1, { r.2 with prev_action := some user_action })

/-- **C10** (amended).  An integer action in `[-A, -1]` does not fail:
for the Bayesian and MaxEnt updaters the call behaves exactly as if the
wrapped action `A + action` had been observed; for the CRF updater the
*returned belief* is that of the wrapped action but the stored
previous-action context keeps the raw negative integer.  Indexing fails
exactly for actions outside `[-A, A)`. -/
theorem negative_action_indexing {S : Type} {N A : ℕ} [NeZero N] [NeZero A] :
    (∀ (P : BayesianPredictor S N A) (s : S) (u : ℤ) (alpha ps beta : ℝ)
        (pol : S → Fin A → ℝ) (h1 : -(A:ℤ) ≤ u) (h2 : u < 0),
      P.log_likelihoodZ s u pol =
          some (P.log_likelihood s (wrapFin A u h1 h2) pol) ∧
        P.updateZ s u alpha ps beta =
          some (P.update s (wrapFin A u h1 h2) alpha ps beta)) ∧
    (∀ (P : MaxEntPredictor S N A) (s : S) (u : ℤ) (alpha : ℝ)
        (pol : S → Fin A → ℝ) (h1 : -(A:ℤ) ≤ u) (h2 : u < 0),
      P.log_likelihoodZ s u pol =
          some (P.log_likelihood s (wrapFin A u h1 h2) pol) ∧
        P.updateZ s u alpha = some (P.update s (wrapFin A u h1 h2) alpha)) ∧
    (∀ (P : CRFPredictor S N A) (s : S) (u : ℤ) (pol : S → Fin A → ℝ)
        (h1 : -(A:ℤ) ≤ u) (h2 : u < 0),
      P.log_likelihoodZ s u pol =
          some (P.log_likelihood s (wrapFin A u h1 h2) pol) ∧
        (P.updateZ s u).map Prod.fst =
          some (P.update s (wrapFin A u h1 h2)).1 ∧
        (P.updateZ s u).map (fun r => r.2.prev_action) = some (some u)) ∧
    (∀ u : ℤ, wrapIdx A u = none ↔ u < -(A:ℤ) ∨ (A:ℤ) ≤ u) := by
  refine ⟨fun P s u alpha ps beta pol h1 h2 => ?_,
    fun P s u alpha pol h1 h2 => ?_, fun P s u pol h1 h2 => ?_,
    fun u => wrapIdx_eq_none_iff A u⟩
  · unfold BayesianPredictor.log_likelihoodZ BayesianPredictor.updateZ
    rw [wrapIdx_neg A u h1 h2]
    exact ⟨rfl, rfl⟩
  · unfold MaxEntPredictor.log_likelihoodZ MaxEntPredictor.updateZ
    rw [wrapIdx_neg A u h1 h2]
    exact ⟨rfl, rfl⟩
  · unfold CRFPredictor.log_likelihoodZ CRFPredictor.updateZ
    rw [wrapIdx_neg A u h1 h2]
    exact ⟨rfl, rfl, rfl⟩

/-- Witness for C10: at the concrete Bayesian updater, action `-1` wraps
to action `1`. -/
theorem negative_action_indexing_witness :
    bayesTwo.log_likelihoodZ () (-1) (polTwo 0) =
        some (bayesTwo.log_likelihood ()
          (wrapFin 2 (-1) (by norm_num) (by norm_num)) (polTwo 0)) ∧
      bayesTwo.updateZ () (-1) 0.05 0.02 1 =
        some (bayesTwo.update ()
          (wrapFin 2 (-1) (by norm_num) (by norm_num)) 0.05 0.02 1) :=
  negative_action_indexing.1 bayesTwo () (-1) 0.05 0.02 1 (polTwo 0)
    (by norm_num) (by norm_num)

/-- Counterexample to C10 as stated: for the CRF updater, observing the
raw action `-1` is *not* exactly as if action `A + (-1) = 1` had been
observed.  The stored context keeps `-1`, which matches no in-range
action, so the very next likelihood computation already differs from
the one after a genuine observation of action `1`. -/
theorem crf_negative_index_diverges :
    (crfTwo.updateZ () (-1)).map
        (fun r => r.2.log_likelihood () 1 (fun _ _ => 0)) ≠
      some ((crfTwo.update () 1).2.log_likelihood () 1 (fun _ _ => 0)) := by
  have hwrap : wrapIdx 2 (-1:ℤ) = some 1 := by decide
  unfold CRFPredictor.updateZ
  rw [hwrap, Option.map_some', Option.map_some', Ne, Option.some.injEq]
  apply ne_of_lt
  show ({(crfTwo.update () 1).2 with prev_action := some (-1)} :
      CRFPredictor Unit 2 2).log_likelihood () 1 (fun _ _ => 0) <
    (crfTwo.update () 1).2.log_likelihood () 1 (fun _ _ => 0)
  have hx : ({(crfTwo.update () 1).2 with prev_action := some (-1)} :
      CRFPredictor Unit 2 2).log_likelihood () 1 (fun _ _ => 0) =
      Real.log (stableNorm (fun a : Fin 2 => (0:ℝ) / crfTwo.tau +
        if (-1:ℤ) = (a:ℤ) then crfTwo.pairwise_weight else 0) 1 + 1e-12) := rfl
  have hy : (crfTwo.update () 1).2.log_likelihood () 1 (fun _ _ => 0) =
      Real.log (stableNorm (fun a : Fin 2 => (0:ℝ) / crfTwo.tau +
        if (((1:Fin 2):ℤ)) = (a:ℤ) then crfTwo.pairwise_weight else 0) 1
        + 1e-12) := rfl
  rw [hx, hy]
  apply Real.log_lt_log (add_pos (stableNorm_pos _ _) (by norm_num))
  apply add_lt_add_right
  have e1 : (fun a : Fin 2 => (0:ℝ) / crfTwo.tau +
      if (-1:ℤ) = (a:ℤ) then crfTwo.pairwise_weight else 0) =
      fun _ => (0:ℝ) := by
    funext a
    fin_cases a <;> rw [if_neg (by decide), zero_div, zero_add]
  have e2 : (fun a : Fin 2 => (0:ℝ) / crfTwo.tau +
      if (((1:Fin 2):ℤ)) = (a:ℤ) then crfTwo.pairwise_weight else 0) =
      fun a => if a = 1 then crfTwo.pairwise_weight else 0 := by
    funext a
    fin_cases a
    · rw [if_neg (by decide), zero_div, zero_add, if_neg (by decide)]
    · rw [if_pos (by decide), zero_div, zero_add, if_pos (by decide)]
  rw [e1, e2, stableNorm_const, stableNorm_eq, Fin.sum_univ_two]
  have h20 : (if (0:Fin 2) = 1 then crfTwo.pairwise_weight else 0) = 0 :=
    if_neg (by decide)
  have h21 : (if (1:Fin 2) = 1 then crfTwo.pairwise_weight else 0) =
      crfTwo.pairwise_weight := if_pos rfl
  rw [h20, h21, Real.exp_zero]
  show (1:ℝ) / ((2:ℕ):ℝ) < Real.exp 0.3 / (1 + Real.exp 0.3)
  have hE : (1:ℝ) < Real.exp 0.3 := by
    nlinarith [Real.add_one_lt_exp (show (0.3:ℝ) ≠ 0 by norm_num)]
  rw [div_lt_div_iff₀ (by norm_num) (by positivity)]
  push_cast
  nlinarith [hE]

/-! ### C8: goal-switch mixing moves the belief toward uniform

Distances from the uniform distribution are measured in the sup norm. -/

/-- Sup-norm distance of a vector from the uniform distribution. -/
def distUnif {n : ℕ} [NeZero n] (q : Fin n → ℝ) : ℝ :=
  Finset.univ.sup' Finset.univ_nonempty (fun i => |q i - 1 / (n:ℝ)|)

theorem sup'_const_mul {n : ℕ} [NeZero n] {c : ℝ} (hc : 0 ≤ c)
    (f : Fin n → ℝ) :
    Finset.univ.sup' Finset.univ_nonempty (fun i => c * f i) =
      c * Finset.univ.sup' Finset.univ_nonempty f := by
  apply le_antisymm
  · exact Finset.sup'_le _ _ fun i _ =>
      mul_le_mul_of_nonneg_left (Finset.le_sup' f (Finset.mem_univ i)) hc
  · obtain ⟨i0, -, hi0⟩ :=
      Finset.exists_mem_eq_sup' (Finset.univ_nonempty (α := Fin n)) f
    rw [hi0]
    exact Finset.le_sup' (fun i => c * f i) (Finset.mem_univ i0)

theorem distUnif_mixUnif {n : ℕ} [NeZero n] {t : ℝ} (q : Fin n → ℝ)
    (ht1 : t ≤ 1) : distUnif (mixUnif t q) = (1 - t) * distUnif q := by
  have h : (fun i => |mixUnif t q i - 1 / (n:ℝ)|) =
      fun i => (1 - t) * |q i - 1 / (n:ℝ)| := by
    funext i
    have e : mixUnif t q i - 1 / (n:ℝ) = (1 - t) * (q i - 1 / (n:ℝ)) := by
      unfold mixUnif; ring
    rw [e, abs_mul, abs_of_nonneg (by linarith : (0:ℝ) ≤ 1 - t)]
  unfold distUnif
  rw [h, sup'_const_mul (by linarith : (0:ℝ) ≤ 1 - t)]

theorem distUnif_ge {n : ℕ} [NeZero n] (q : Fin n → ℝ) (i : Fin n) :
    |q i - 1 / (n:ℝ)| ≤ distUnif q := by
  unfold distUnif
  exact Finset.le_sup' (fun j => |q j - 1 / (n:ℝ)|) (Finset.mem_univ i)

theorem distUnif_pos_of_ne {n : ℕ} [NeZero n] {q : Fin n → ℝ}
    (h : q ≠ fun _ => 1 / (n:ℝ)) : 0 < distUnif q := by
  obtain ⟨i, hi⟩ := Function.ne_iff.mp h
  calc (0:ℝ) < |q i - 1 / (n:ℝ)| := abs_pos.mpr (sub_ne_zero.mpr hi)
    _ ≤ distUnif q := distUnif_ge q i

theorem distUnif_uniform {n : ℕ} [NeZero n] :
    distUnif (fun _ : Fin n => 1 / (n:ℝ)) = 0 := by
  unfold distUnif
  rw [show (fun i : Fin n => |1 / (n:ℝ) - 1 / (n:ℝ)|) = fun _ => 0 by
    funext i; rw [sub_self, abs_zero]]
  exact Finset.sup'_const _ 0

theorem mixUnif_one {n : ℕ} [NeZero n] (q : Fin n → ℝ) :
    mixUnif 1 q = fun _ => 1 / (n:ℝ) := by
  funext i
  show (1 - 1) * q i + 1 * (1 / (n:ℝ)) = 1 / (n:ℝ)
  ring

theorem tempNorm_uniform {n : ℕ} [NeZero n] (beta : ℝ) :
    tempNorm beta (fun _ : Fin n => 1 / (n:ℝ)) = fun _ => 1 / (n:ℝ) := by
  have hn : (0:ℝ) < n := natCast_pos_of_neZero n
  have hp : (0:ℝ) < (1 / (n:ℝ)) ^ (1/beta) :=
    Real.rpow_pos_of_pos (by positivity) _
  funext i
  show (1 / (n:ℝ)) ^ (1/beta) / (∑ _j : Fin n, (1 / (n:ℝ)) ^ (1/beta)) = 1 / (n:ℝ)
  rw [Finset.sum_const, Finset.card_univ, Fintype.card_fin, nsmul_eq_mul,
    mul_comm, ← div_div, div_self hp.ne']

theorem mixUnif_pos {n : ℕ} [NeZero n] {t : ℝ} {q : Fin n → ℝ}
    (hq : ∀ i, 0 < q i) (ht0 : 0 ≤ t) (ht1 : t ≤ 1) (i : Fin n) :
    0 < mixUnif t q i :=
  convex_pos ht0 ht1 (hq i) (one_div_pos.mpr (natCast_pos_of_neZero n))

theorem const_eq_uniform {n : ℕ} [NeZero n] {q : Fin n → ℝ}
    (hsum : ∑ i, q i = 1) (hconst : ∀ j k : Fin n, q j = q k) :
    q = fun _ => 1 / (n:ℝ) := by
  have hn : (0:ℝ) < n := natCast_pos_of_neZero n
  funext i
  have h : ∑ j, q j = (n:ℝ) * q i := by
    rw [Finset.sum_congr rfl fun j _ => hconst j i, Finset.sum_const,
      Finset.card_univ, Fintype.card_fin, nsmul_eq_mul]
  rw [h] at hsum
  rw [eq_div_iff hn.ne', mul_comm]
  exact hsum

theorem exists_lt_of_ne_uniform {n : ℕ} [NeZero n] {q : Fin n → ℝ}
    (hq : PosSimplex q) (hne : q ≠ fun _ => 1 / (n:ℝ)) :
    ∃ j k, q j < q k := by
  by_contra h
  push_neg at h
  exact hne (const_eq_uniform hq.2 fun j k => le_antisymm (h k j) (h j k))

theorem tempNorm_denom_pos {n : ℕ} [NeZero n] {q : Fin n → ℝ}
    (hq : ∀ i, 0 < q i) (beta : ℝ) : 0 < ∑ j, q j ^ (1/beta) :=
  Finset.sum_pos (fun j _ => Real.rpow_pos_of_pos (hq j) _) Finset.univ_nonempty

theorem tempNorm_mono {n : ℕ} [NeZero n] {q : Fin n → ℝ} {beta : ℝ}
    (hq : ∀ i, 0 < q i) (hb : 0 < beta) {i j : Fin n} (hij : q i ≤ q j) :
    tempNorm beta q i ≤ tempNorm beta q j := by
  unfold tempNorm
  exact div_le_div_of_nonneg_right
    (Real.rpow_le_rpow (hq i).le hij (by positivity))
    (tempNorm_denom_pos hq beta).le

theorem tempNorm_strict_mono {n : ℕ} [NeZero n] {q : Fin n → ℝ} {beta : ℝ}
    (hq : ∀ i, 0 < q i) (hb : 0 < beta) {i j : Fin n} (hij : q i < q j) :
    tempNorm beta q i < tempNorm beta q j := by
  unfold tempNorm
  exact div_lt_div_of_pos_right
    (Real.rpow_lt_rpow (hq i).le hij (by positivity))
    (tempNorm_denom_pos hq beta)

/-- Mixing toward uniform strictly decreases the tempered probability of
a maximal entry (the max-to-rest ratios all shrink). -/
theorem tempNorm_mix_max_lt {n : ℕ} [NeZero n] {q : Fin n → ℝ} {t beta : ℝ}
    (hq : ∀ i, 0 < q i) (hb : 0 < beta) (ht0 : 0 < t) (ht1 : t < 1)
    {jm j0 : Fin n} (hjm : ∀ i, q i ≤ q jm) (hj0 : q j0 < q jm) :
    tempNorm beta (mixUnif t q) jm < tempNorm beta q jm := by
  have hn : (0:ℝ) < n := natCast_pos_of_neZero n
  have hγ : (0:ℝ) < 1/beta := by positivity
  have hM : ∀ i, 0 < mixUnif t q i := mixUnif_pos hq ht0.le ht1.le
  have hDq : 0 < ∑ j, q j ^ (1/beta) := tempNorm_denom_pos hq beta
  have hDM : 0 < ∑ j, mixUnif t q j ^ (1/beta) := tempNorm_denom_pos hM beta
  unfold tempNorm
  rw [div_lt_div_iff₀ hDM hDq, Finset.mul_sum, Finset.mul_sum]
  apply Finset.sum_lt_sum
  · intro j _
    rw [← Real.mul_rpow (hM jm).le (hq j).le,
      ← Real.mul_rpow (hq jm).le (hM j).le]
    apply Real.rpow_le_rpow (mul_nonneg (hM jm).le (hq j).le) ?_ hγ.le
    show ((1-t) * q jm + t * (1/(n:ℝ))) * q j ≤
      q jm * ((1-t) * q j + t * (1/(n:ℝ)))
    nlinarith [mul_le_mul_of_nonneg_left (hjm j)
      (show (0:ℝ) ≤ t * (1/(n:ℝ)) by positivity)]
  · refine ⟨j0, Finset.mem_univ j0, ?_⟩
    rw [← Real.mul_rpow (hM jm).le (hq j0).le,
      ← Real.mul_rpow (hq jm).le (hM j0).le]
    apply Real.rpow_lt_rpow (mul_nonneg (hM jm).le (hq j0).le) ?_ hγ
    show ((1-t) * q jm + t * (1/(n:ℝ))) * q j0 <
      q jm * ((1-t) * q j0 + t * (1/(n:ℝ)))
    nlinarith [mul_lt_mul_of_pos_left hj0
      (show (0:ℝ) < t * (1/(n:ℝ)) by positivity)]

/-- Mixing toward uniform strictly increases the tempered probability of
a minimal entry. -/
theorem tempNorm_mix_min_gt {n : ℕ} [NeZero n] {q : Fin n → ℝ} {t beta : ℝ}
    (hq : ∀ i, 0 < q i) (hb : 0 < beta) (ht0 : 0 < t) (ht1 : t < 1)
    {jn k0 : Fin n} (hjn : ∀ i, q jn ≤ q i) (hk0 : q jn < q k0) :
    tempNorm beta q jn < tempNorm beta (mixUnif t q) jn := by
  have hn : (0:ℝ) < n := natCast_pos_of_neZero n
  have hγ : (0:ℝ) < 1/beta := by positivity
  have hM : ∀ i, 0 < mixUnif t q i := mixUnif_pos hq ht0.le ht1.le
  have hDq : 0 < ∑ j, q j ^ (1/beta) := tempNorm_denom_pos hq beta
  have hDM : 0 < ∑ j, mixUnif t q j ^ (1/beta) := tempNorm_denom_pos hM beta
  unfold tempNorm
  rw [div_lt_div_iff₀ hDq hDM, Finset.mul_sum, Finset.mul_sum]
  apply Finset.sum_lt_sum
  · intro j _
    rw [← Real.mul_rpow (hq jn).le (hM j).le,
      ← Real.mul_rpow (hM jn).le (hq j).le]
    apply Real.rpow_le_rpow (mul_nonneg (hq jn).le (hM j).le) ?_ hγ.le
    show q jn * ((1-t) * q j + t * (1/(n:ℝ))) ≤
      ((1-t) * q jn + t * (1/(n:ℝ))) * q j
    nlinarith [mul_le_mul_of_nonneg_left (hjn j)
      (show (0:ℝ) ≤ t * (1/(n:ℝ)) by positivity)]
  · refine ⟨k0, Finset.mem_univ k0, ?_⟩
    rw [← Real.mul_rpow (hq jn).le (hM k0).le,
      ← Real.mul_rpow (hM jn).le (hq k0).le]
    apply Real.rpow_lt_rpow (mul_nonneg (hq jn).le (hM k0).le) ?_ hγ
    show q jn * ((1-t) * q k0 + t * (1/(n:ℝ))) <
      ((1-t) * q jn + t * (1/(n:ℝ))) * q k0
    nlinarith [mul_lt_mul_of_pos_left hk0
      (show (0:ℝ) < t * (1/(n:ℝ)) by positivity)]

theorem mixUnif_uniform {n : ℕ} [NeZero n] (t : ℝ) :
    mixUnif t (fun _ : Fin n => 1 / (n:ℝ)) = fun _ => 1 / (n:ℝ) := by
  funext i
  show (1 - t) * (1 / (n:ℝ)) + t * (1 / (n:ℝ)) = 1 / (n:ℝ)
  ring

theorem distUnif_tempNorm_mix_lt {n : ℕ} [NeZero n] {q : Fin n → ℝ}
    {t beta : ℝ} (hq : PosSimplex q) (hne : q ≠ fun _ => 1 / (n:ℝ))
    (hb : 0 < beta) (ht0 : 0 < t) (ht1 : t ≤ 1) :
    distUnif (tempNorm beta (mixUnif t q)) < distUnif (tempNorm beta q) := by
  rcases eq_or_lt_of_le ht1 with h1 | h1
  · rw [h1, mixUnif_one, tempNorm_uniform, distUnif_uniform]
    apply distUnif_pos_of_ne
    obtain ⟨j, k, hjk⟩ := exists_lt_of_ne_uniform hq hne
    intro hcontra
    have h2 := tempNorm_strict_mono hq.1 hb hjk
    rw [hcontra] at h2
    exact lt_irrefl _ h2
  · obtain ⟨jm, hjm⟩ := Finite.exists_max q
    obtain ⟨jn, hjn⟩ := Finite.exists_min q
    have hmaxne : ∃ j0, q j0 < q jm := by
      by_contra h
      push_neg at h
      exact hne (const_eq_uniform hq.2 fun j k =>
        (le_antisymm (hjm j) (h j)).trans (le_antisymm (hjm k) (h k)).symm)
    have hminne : ∃ k0, q jn < q k0 := by
      by_contra h
      push_neg at h
      exact hne (const_eq_uniform hq.2 fun j k =>
        (le_antisymm (h j) (hjn j)).trans (le_antisymm (h k) (hjn k)).symm)
    obtain ⟨j0, hj0⟩ := hmaxne
    obtain ⟨k0, hk0⟩ := hminne
    have hM : ∀ i, 0 < mixUnif t q i := mixUnif_pos hq.1 ht0.le ht1
    have hMjm : ∀ i, mixUnif t q i ≤ mixUnif t q jm := by
      intro i
      show (1-t) * q i + t * (1 / (n:ℝ)) ≤ (1-t) * q jm + t * (1 / (n:ℝ))
      nlinarith [mul_le_mul_of_nonneg_left (hjm i)
        (show (0:ℝ) ≤ 1 - t by linarith)]
    have hMjn : ∀ i, mixUnif t q jn ≤ mixUnif t q i := by
      intro i
      show (1-t) * q jn + t * (1 / (n:ℝ)) ≤ (1-t) * q i + t * (1 / (n:ℝ))
      nlinarith [mul_le_mul_of_nonneg_left (hjn i)
        (show (0:ℝ) ≤ 1 - t by linarith)]
    have hmax := tempNorm_mix_max_lt hq.1 hb ht0 h1 hjm hj0
    have hmin := tempNorm_mix_min_gt hq.1 hb ht0 h1 hjn hk0
    show Finset.univ.sup' Finset.univ_nonempty
        (fun i => |tempNorm beta (mixUnif t q) i - 1 / (n:ℝ)|) <
      distUnif (tempNorm beta q)
    rw [Finset.sup'_lt_iff]
    intro i _
    rw [abs_sub_lt_iff]
    have hub : tempNorm beta (mixUnif t q) i ≤ tempNorm beta (mixUnif t q) jm :=
      tempNorm_mono hM hb (hMjm i)
    have hlb : tempNorm beta (mixUnif t q) jn ≤ tempNorm beta (mixUnif t q) i :=
      tempNorm_mono hM hb (hMjn i)
    constructor
    · calc tempNorm beta (mixUnif t q) i - 1 / (n:ℝ)
          < tempNorm beta q jm - 1 / (n:ℝ) := by linarith
        _ ≤ |tempNorm beta q jm - 1 / (n:ℝ)| := le_abs_self _
        _ ≤ distUnif (tempNorm beta q) := distUnif_ge _ jm
    · calc 1 / (n:ℝ) - tempNorm beta (mixUnif t q) i
          < 1 / (n:ℝ) - tempNorm beta q jn := by linarith
        _ ≤ |tempNorm beta q jn - 1 / (n:ℝ)| := by
            rw [abs_sub_comm]; exact le_abs_self _
        _ ≤ distUnif (tempNorm beta q) := distUnif_ge _ jn

theorem distUnif_tempStep_mix_lt {n : ℕ} [NeZero n] {q : Fin n → ℝ}
    {t beta : ℝ} (hq : PosSimplex q) (hne : q ≠ fun _ => 1 / (n:ℝ))
    (hb : 0 < beta) (ht0 : 0 < t) (ht1 : t ≤ 1) :
    distUnif (tempStep beta (mixUnif t q)) < distUnif (tempStep beta q) := by
  unfold tempStep
  by_cases hb1 : beta ≠ 1
  · rw [if_pos hb1, if_pos hb1]
    exact distUnif_tempNorm_mix_lt hq hne hb ht0 ht1
  · rw [if_neg hb1, if_neg hb1, distUnif_mixUnif q ht1]
    have hd : 0 < distUnif q := distUnif_pos_of_ne hne
    nlinarith [mul_pos ht0 hd]

theorem postPipeline_uniform {n : ℕ} [NeZero n] (eps ps beta : ℝ) :
    postPipeline eps ps beta (fun _ : Fin n => 1 / (n:ℝ)) =
      fun _ => 1 / (n:ℝ) := by
  unfold postPipeline smoothStep switchStep tempStep
  by_cases hps : 0 < ps
  · rw [if_pos hps, mixUnif_uniform]
    by_cases hb1 : beta ≠ 1
    · rw [if_pos hb1, tempNorm_uniform, mixUnif_uniform]
    · rw [if_neg hb1, mixUnif_uniform]
  · rw [if_neg hps]
    by_cases hb1 : beta ≠ 1
    · rw [if_pos hb1, tempNorm_uniform, mixUnif_uniform]
    · rw [if_neg hb1, mixUnif_uniform]

/-- The probability-space pipeline with `p_switch = ps > 0` lands
strictly closer to uniform than with `p_switch = 0`, unless the latter
is already uniform. -/
theorem distUnif_pipeline_lt {n : ℕ} [NeZero n] {q : Fin n → ℝ}
    {eps ps beta : ℝ} (hq : PosSimplex q) (hps0 : 0 < ps) (hps1 : ps ≤ 1)
    (he1 : eps < 1) (hb : 0 < beta)
    (hne : postPipeline eps 0 beta q ≠ fun _ => 1 / (n:ℝ)) :
    distUnif (postPipeline eps ps beta q) <
      distUnif (postPipeline eps 0 beta q) := by
  have hqne : q ≠ fun _ => 1 / (n:ℝ) := by
    intro hc
    exact hne (by rw [hc, postPipeline_uniform])
  unfold postPipeline smoothStep switchStep
  rw [if_pos hps0, if_neg (lt_irrefl (0:ℝ))]
  rw [distUnif_mixUnif _ he1.le, distUnif_mixUnif _ he1.le]
  exact mul_lt_mul_of_pos_left
    (distUnif_tempStep_mix_lt hq hqne hb hps0 hps1) (by linarith)

/-- **C8** (amended: the comparison is strict unless the `p_switch = 0`
update already returns the uniform belief).  For the Bayesian and CRF
updaters with `0 < p_switch ≤ 1`, `eps < 1` and `beta > 0`, the belief
returned with goal-switch mixing is strictly closer (sup-norm) to
uniform than the belief of the identical update with `p_switch = 0`. -/
theorem switch_mixing_moves_toward_uniform {S : Type} {N A : ℕ}
    [NeZero N] [NeZero A] :
    (∀ (P : BayesianPredictor S N A) (s : S) (a : Fin A) (alpha ps beta : ℝ),
      0 < ps → ps ≤ 1 → P.eps < 1 → 0 < beta →
      (P.update s a alpha 0 beta).1 ≠ (fun _ => 1 / (N:ℝ)) →
      distUnif (P.update s a alpha ps beta).1 <
        distUnif (P.update s a alpha 0 beta).1) ∧
    (∀ (P : CRFPredictor S N A) (s : S) (a : Fin A) (ps : ℝ),
      0 < ps → ps ≤ 1 → P.eps < 1 → 0 < P.beta →
      (({ P with p_switch := 0 } : CRFPredictor S N A).update s a).1 ≠
        (fun _ => 1 / (N:ℝ)) →
      distUnif (({ P with p_switch := ps } : CRFPredictor S N A).update s a).1 <
        distUnif (({ P with p_switch := 0 } : CRFPredictor S N A).update s a).1) := by
  constructor
  · intro P s a alpha ps beta hps0 hps1 he1 hb hne
    rw [bayes_update_decomp, bayes_update_decomp]
    exact distUnif_pipeline_lt (posSimplex_stableNorm _) hps0 hps1 he1 hb
      (by rw [← bayes_update_decomp]; exact hne)
  · intro P s a ps hps0 hps1 he1 hb hne
    have hps' : (({ P with p_switch := ps } : CRFPredictor S N A).update s a).1 =
        postPipeline P.eps ps P.beta
          (stableNorm (forgetStep P.alpha P.log_post
            (fun i => P.log_likelihood s a (P.policies i)))) := rfl
    have h0' : (({ P with p_switch := 0 } : CRFPredictor S N A).update s a).1 =
        postPipeline P.eps 0 P.beta
          (stableNorm (forgetStep P.alpha P.log_post
            (fun i => P.log_likelihood s a (P.policies i)))) := rfl
    rw [hps', h0']
    exact distUnif_pipeline_lt (posSimplex_stableNorm _) hps0 hps1 he1 hb
      (by rw [← h0']; exact hne)

/-- The two-hypothesis updater whose two policies are identical: every
update returns the uniform belief. -/
def polSame : Fin 2 → Unit → Fin 2 → ℝ := fun _ _ _ => 0

def bayesSame : BayesianPredictor Unit 2 2 :=
  BayesianPredictor.init polSame 0.8 1e-3 none

/-- Counterexample to C8 as stated ("for any stored belief and
observation"): with two identical hypotheses both the `p_switch = 0.02`
and the `p_switch = 0` update return exactly the uniform belief, so the
distance from uniform does not strictly decrease. -/
theorem switch_mixing_not_strict_at_uniform :
    ¬ distUnif (bayesSame.update () 0 0.05 0.02 1).1 <
      distUnif (bayesSame.update () 0 0.05 0 1).1 := by
  have hq : stableNorm (forgetStep 0.05 bayesSame.log_post
      (fun i => bayesSame.log_likelihood () 0 (bayesSame.policies i))) =
      fun _ => 1 / ((2:ℕ):ℝ) :=
    stableNorm_const ((1 - 0.05) * Real.log (1 / ((2:ℕ):ℝ) + 1e-12) +
      0.05 * bayesSame.log_likelihood () 0 (fun _ _ => 0))
  have h02 : (bayesSame.update () 0 0.05 0.02 1).1 = fun _ => 1 / ((2:ℕ):ℝ) := by
    rw [bayes_update_decomp, hq, postPipeline_uniform]
  have h00 : (bayesSame.update () 0 0.05 0 1).1 = fun _ => 1 / ((2:ℕ):ℝ) := by
    rw [bayes_update_decomp, hq, postPipeline_uniform]
  rw [h02, h00, distUnif_uniform]
  exact lt_irrefl 0

/-! ### C1: the concrete five-update scenario

`bayesTwo` observes action `0` five times with the default
hyperparameters.  The log-likelihood gap between the two hypotheses is
`log ((p + 1e-8)/(q + 1e-8))` with `p = e^{5/4}/(e^{5/4}+1)` and
`q = 1/(1+e^{5/4})`; it lies in `(0, 5/4]`, and with `alpha = 0.05` the
log-belief gap after any number of updates stays in `(0, 5/4]`, so the
belief in hypothesis 0 stays strictly between `1/2` and `4/5` — never
near the spec's `0.9`. -/

def fiveZeros : List (Unit × Fin 2) :=
  [((), 0), ((), 0), ((), 0), ((), 0), ((), 0)]

def bayesRun5 : (Fin 2 → ℝ) × BayesianPredictor Unit 2 2 :=
  BayesianPredictor.runUpdates 0.05 0.02 1 bayesTwo fiveZeros

/-- A two-hypothesis Bayesian updater of the concrete scenario with an
arbitrary stored log-belief. -/
def mkB (lp : Fin 2 → ℝ) : BayesianPredictor Unit 2 2 :=
  { policies := polTwo, tau := 0.8, eps := 1e-3, log_post := lp }

/-- The per-hypothesis log-likelihood of observing action `0` in the
concrete scenario (independent of the stored belief). -/
def Lhyp (i : Fin 2) : ℝ :=
  Real.log (stableNorm (fun a : Fin 2 => polTwo i () a / 0.8) 0 + 1e-8)

theorem sn_pol0 : stableNorm (fun a : Fin 2 => polTwo 0 () a / 0.8) 0 =
    Real.exp (5/4) / (Real.exp (5/4) + 1) := by
  rw [stableNorm_eq, Fin.sum_univ_two]
  norm_num [polTwo, Real.exp_zero]

theorem sn_pol1 : stableNorm (fun a : Fin 2 => polTwo 1 () a / 0.8) 0 =
    1 / (1 + Real.exp (5/4)) := by
  rw [stableNorm_eq, Fin.sum_univ_two]
  norm_num [polTwo, Real.exp_zero]

theorem one_lt_exp_five_quarters : (1:ℝ) < Real.exp (5/4) := by
  nlinarith [Real.add_one_lt_exp (show (5/4:ℝ) ≠ 0 by norm_num)]

theorem exp_five_quarters_lt_four : Real.exp (5/4) < 4 := by
  have h1 : Real.exp (5/4:ℝ) = Real.exp 1 * Real.exp (1/4) := by
    rw [← Real.exp_add]; norm_num
  have h2 : Real.exp 1 < 2.7182818286 := Real.exp_one_lt_d9
  have h3 : Real.exp (1/4:ℝ) < 4/3 := by
    have ha : (3/4:ℝ) < Real.exp (-(1/4)) := by
      nlinarith [Real.add_one_lt_exp (show (-(1/4):ℝ) ≠ 0 by norm_num)]
    have hb : Real.exp (-(1/4:ℝ)) * Real.exp (1/4:ℝ) = 1 := by
      rw [← Real.exp_add]; norm_num [Real.exp_zero]
    nlinarith [Real.exp_pos (1/4:ℝ)]
  have h4 : (0:ℝ) < Real.exp 1 := Real.exp_pos 1
  nlinarith

theorem Lhyp_gap_pos : 0 < Lhyp 0 - Lhyp 1 := by
  unfold Lhyp
  rw [sn_pol0, sn_pol1]
  have hE := one_lt_exp_five_quarters
  have hD : (0:ℝ) < 1 + Real.exp (5/4) := by positivity
  have hlt : (1:ℝ) / (1 + Real.exp (5/4)) + 1e-8 <
      Real.exp (5/4) / (Real.exp (5/4) + 1) + 1e-8 := by
    have : (1:ℝ) / (1 + Real.exp (5/4)) < Real.exp (5/4) / (Real.exp (5/4) + 1) := by
      rw [div_lt_div_iff₀ hD (by positivity)]
      nlinarith
    linarith
  have := Real.log_lt_log (by positivity) hlt
  linarith

theorem Lhyp_gap_le : Lhyp 0 - Lhyp 1 ≤ 5/4 := by
  unfold Lhyp
  rw [sn_pol0, sn_pol1]
  have hE := one_lt_exp_five_quarters
  have hD : (0:ℝ) < 1 + Real.exp (5/4) := by positivity
  have key : Real.exp (5/4) / (Real.exp (5/4) + 1) + 1e-8 ≤
      Real.exp (5/4) * (1 / (1 + Real.exp (5/4)) + 1e-8) := by
    rw [mul_add, mul_one_div, add_comm (1:ℝ) (Real.exp (5/4))]
    nlinarith
  have hlog := (Real.log_le_log_iff (by positivity) (by positivity)).mpr key
  rw [Real.log_mul (by positivity) (by positivity), Real.log_exp] at hlog
  linarith

set_option maxHeartbeats 1600000 in
/-- One default update of the concrete scenario: if the stored
log-belief gap is in `[0, 5/4]`, the returned belief for hypothesis 0 is
in `(1/2, 4/5)` and the new stored gap is again in `[0, 5/4]`. -/
theorem bayesTwo_step (lp : Fin 2 → ℝ) (h0 : 0 ≤ lp 0 - lp 1)
    (h1 : lp 0 - lp 1 ≤ 5/4) :
    (1/2 < ((mkB lp).update () 0 0.05 0.02 1).1 0 ∧
      ((mkB lp).update () 0 0.05 0.02 1).1 0 < 4/5) ∧
    (0 ≤ ((mkB lp).update () 0 0.05 0.02 1).2.log_post 0 -
        ((mkB lp).update () 0 0.05 0.02 1).2.log_post 1 ∧
      ((mkB lp).update () 0 0.05 0.02 1).2.log_post 0 -
        ((mkB lp).update () 0 0.05 0.02 1).2.log_post 1 ≤ 5/4) := by
  set v : Fin 2 → ℝ := forgetStep 0.05 lp Lhyp with hv
  have hdec1 : ((mkB lp).update () 0 0.05 0.02 1).1 =
      postPipeline 1e-3 0.02 1 (stableNorm v) := rfl
  have hdec2 : ((mkB lp).update () 0 0.05 0.02 1).2.log_post =
      fun i => Real.log (postPipeline 1e-3 0.02 1 (stableNorm v) i + 1e-12) :=
    rfl
  have hbfun : postPipeline 1e-3 0.02 1 (stableNorm v) =
      fun i => (1 - 1e-3) * ((1 - 0.02) * stableNorm v i + 0.02 * (1/2)) +
        1e-3 * (1/2) := by
    unfold postPipeline smoothStep switchStep tempStep mixUnif
    rw [if_pos (show (0:ℝ) < 0.02 by norm_num),
      if_neg (show ¬((1:ℝ) ≠ 1) by simp)]
    funext i
    norm_num
  have hd0 : 0 < v 0 - v 1 := by
    show 0 < ((1 - 0.05) * lp 0 + 0.05 * Lhyp 0) -
      ((1 - 0.05) * lp 1 + 0.05 * Lhyp 1)
    nlinarith [Lhyp_gap_pos]
  have hd1 : v 0 - v 1 ≤ 5/4 := by
    show ((1 - 0.05) * lp 0 + 0.05 * Lhyp 0) -
      ((1 - 0.05) * lp 1 + 0.05 * Lhyp 1) ≤ 5/4
    nlinarith [Lhyp_gap_le]
  have hsum : stableNorm v 0 + stableNorm v 1 = 1 := by
    have h := stableNorm_sum_one v
    rwa [Fin.sum_univ_two] at h
  have hpos0 := stableNorm_pos v 0
  have hpos1 := stableNorm_pos v 1
  have hhalf : 1/2 < stableNorm v 0 := by
    have := stableNorm_lt_of_lt (v := v) (show v 1 < v 0 by linarith)
    linarith
  have hfour : stableNorm v 0 < 4/5 := by
    rw [stableNorm_eq, Fin.sum_univ_two]
    have h4 : Real.exp (v 0) = Real.exp (v 0 - v 1) * Real.exp (v 1) := by
      rw [← Real.exp_add]; ring_nf
    have h5 : Real.exp (v 0 - v 1) ≤ Real.exp (5/4) := Real.exp_le_exp.mpr hd1
    have hlt : Real.exp (v 0) < 4 * Real.exp (v 1) := by
      nlinarith [Real.exp_pos (v 1), exp_five_quarters_lt_four,
        Real.exp_pos (v 0 - v 1)]
    rw [div_lt_div_iff₀ (by positivity) (by norm_num)]
    nlinarith [Real.exp_pos (v 0)]
  have hb0 : ((mkB lp).update () 0 0.05 0.02 1).1 0 =
      (1 - 1e-3) * ((1 - 0.02) * stableNorm v 0 + 0.02 * (1/2)) +
        1e-3 * (1/2) := by
    rw [hdec1, hbfun]
  have hb1 : ((mkB lp).update () 0 0.05 0.02 1).1 1 =
      (1 - 1e-3) * ((1 - 0.02) * stableNorm v 1 + 0.02 * (1/2)) +
        1e-3 * (1/2) := by
    rw [hdec1, hbfun]
  have hL0 : ((mkB lp).update () 0 0.05 0.02 1).2.log_post 0 =
      Real.log ((1 - 1e-3) * ((1 - 0.02) * stableNorm v 0 + 0.02 * (1/2)) +
        1e-3 * (1/2) + 1e-12) := by
    have h := congrFun hdec2 0
    rw [hbfun] at h
    exact h
  have hL1 : ((mkB lp).update () 0 0.05 0.02 1).2.log_post 1 =
      Real.log ((1 - 1e-3) * ((1 - 0.02) * stableNorm v 1 + 0.02 * (1/2)) +
        1e-3 * (1/2) + 1e-12) := by
    have h := congrFun hdec2 1
    rw [hbfun] at h
    exact h
  have hB1pos : 0 < (1 - 1e-3) * ((1 - 0.02) * stableNorm v 1 + 0.02 * (1/2)) +
      1e-3 * (1/2) + 1e-12 := by nlinarith
  have hB0pos : 0 < (1 - 1e-3) * ((1 - 0.02) * stableNorm v 0 + 0.02 * (1/2)) +
      1e-3 * (1/2) + 1e-12 := by nlinarith
  refine ⟨⟨?_, ?_⟩, ?_, ?_⟩
  · rw [hb0]; nlinarith
  · rw [hb0]; nlinarith
  · rw [hL0, hL1]
    have hle : (1 - 1e-3) * ((1 - 0.02) * stableNorm v 1 + 0.02 * (1/2)) +
        1e-3 * (1/2) + 1e-12 ≤
        (1 - 1e-3) * ((1 - 0.02) * stableNorm v 0 + 0.02 * (1/2)) +
        1e-3 * (1/2) + 1e-12 := by nlinarith
    have := (Real.log_le_log_iff hB1pos hB0pos).mpr hle
    linarith
  · rw [hL0, hL1]
    have hsn : stableNorm v 0 = Real.exp (v 0 - v 1) * stableNorm v 1 := by
      rw [stableNorm_eq, stableNorm_eq, Real.exp_sub, div_mul_div_comm,
        mul_comm (Real.exp (v 0)) (Real.exp (v 1)),
        mul_div_mul_left _ _ (Real.exp_ne_zero (v 1))]
    have hD1 : 1 ≤ Real.exp (v 0 - v 1) := Real.one_le_exp hd0.le
    have hkey : (1 - 1e-3) * ((1 - 0.02) * stableNorm v 0 + 0.02 * (1/2)) +
        1e-3 * (1/2) + 1e-12 ≤
        Real.exp (v 0 - v 1) *
          ((1 - 1e-3) * ((1 - 0.02) * stableNorm v 1 + 0.02 * (1/2)) +
            1e-3 * (1/2) + 1e-12) := by
      rw [hsn]
      nlinarith [Real.exp_pos (v 0 - v 1), hpos1]
    have hlog := (Real.log_le_log_iff hB0pos
      (by nlinarith [Real.exp_pos (v 0 - v 1)])).mpr hkey
    rw [Real.log_mul (Real.exp_pos _).ne' hB1pos.ne', Real.log_exp] at hlog
    linarith

/-- `bayesTwo_step` for an arbitrary predictor whose fields equal the
concrete scenario's, propagating those field equalities so five steps
can be chained without unfolding. -/
theorem bayesTwo_step' (P : BayesianPredictor Unit 2 2)
    (hpol : P.policies = polTwo) (htau : P.tau = 0.8) (heps : P.eps = 1e-3)
    (h0 : 0 ≤ P.log_post 0 - P.log_post 1)
    (h1 : P.log_post 0 - P.log_post 1 ≤ 5/4) :
    ((1/2 < (P.update () 0 0.05 0.02 1).1 0 ∧
        (P.update () 0 0.05 0.02 1).1 0 < 4/5) ∧
      (0 ≤ (P.update () 0 0.05 0.02 1).2.log_post 0 -
          (P.update () 0 0.05 0.02 1).2.log_post 1 ∧
        (P.update () 0 0.05 0.02 1).2.log_post 0 -
          (P.update () 0 0.05 0.02 1).2.log_post 1 ≤ 5/4)) ∧
    ((P.update () 0 0.05 0.02 1).2.policies = polTwo ∧
      (P.update () 0 0.05 0.02 1).2.tau = 0.8 ∧
      (P.update () 0 0.05 0.02 1).2.eps = 1e-3) := by
  obtain ⟨pol, tau, eps, lp⟩ := P
  have hpol' : pol = polTwo := hpol
  have htau' : tau = 0.8 := htau
  have heps' : eps = 1e-3 := heps
  subst hpol' htau' heps'
  exact ⟨bayesTwo_step lp h0 h1, rfl, rfl, rfl⟩

set_option maxHeartbeats 800000 in
/-- After the five default updates the belief in hypothesis 0 lies
strictly between `1/2` and `4/5`. -/
theorem bayesRun5_bounds : 1/2 < bayesRun5.1 0 ∧ bayesRun5.1 0 < 4/5 := by
  have e : bayesRun5 =
      ((((bayesTwo.update () 0 0.05 0.02 1).2.update () 0 0.05 0.02 1).2.update
        () 0 0.05 0.02 1).2.update () 0 0.05 0.02 1).2.update () 0 0.05 0.02 1 :=
    rfl
  have h0init : (0:ℝ) ≤ bayesTwo.log_post 0 - bayesTwo.log_post 1 := by
    rw [show bayesTwo.log_post 0 = bayesTwo.log_post 1 from rfl, sub_self]
  have h1init : bayesTwo.log_post 0 - bayesTwo.log_post 1 ≤ 5/4 := by
    rw [show bayesTwo.log_post 0 = bayesTwo.log_post 1 from rfl, sub_self]
    norm_num
  have s1 := bayesTwo_step' bayesTwo rfl rfl rfl h0init h1init
  have s2 := bayesTwo_step' _ s1.2.1 s1.2.2.1 s1.2.2.2 s1.1.2.1 s1.1.2.2
  have s3 := bayesTwo_step' _ s2.2.1 s2.2.2.1 s2.2.2.2 s2.1.2.1 s2.1.2.2
  have s4 := bayesTwo_step' _ s3.2.1 s3.2.2.1 s3.2.2.2 s3.1.2.1 s3.1.2.2
  have s5 := bayesTwo_step' _ s4.2.1 s4.2.2.1 s4.2.2.2 s4.1.2.1 s4.1.2.2
  rw [e]
  exact ⟨s5.1.1.1, s5.1.1.2⟩

/-- Counterexample to C1 as stated: after the five default updates of
the concrete scenario the belief in hypothesis 0 is below `4/5`, hence
certainly not above `0.9`. -/
theorem bayes_five_updates_below_point_nine : bayesRun5.1 0 < 0.9 := by
  have h := bayesRun5_bounds.2
  linarith

/-- **C1** (amended).  In the concrete scenario the fifth update's
belief satisfies `belief[0] > 1/2` — hypothesis 0 strictly dominates —
but with `alpha = 0.05` it cannot exceed `0.9` in five steps. -/
theorem bayes_five_updates_exceed_half : 1/2 < bayesRun5.1 0 :=
  bayesRun5_bounds.1

/-- In the concrete scenario, a single update with `p_switch = 0` does
not return the uniform belief (hypothesis 0 is strictly favoured). -/
theorem bayesTwo_ps0_not_uniform :
    (bayesTwo.update () 0 0.05 0 1).1 ≠ (fun _ => 1 / ((2:ℕ):ℝ)) := by
  intro hc
  have hdec : (bayesTwo.update () 0 0.05 0 1).1 =
      postPipeline 1e-3 0 1
        (stableNorm (forgetStep 0.05 bayesTwo.log_post Lhyp)) := rfl
  set v : Fin 2 → ℝ := forgetStep 0.05 bayesTwo.log_post Lhyp with hv
  have hbfun : postPipeline 1e-3 0 1 (stableNorm v) =
      fun i => (1 - 1e-3) * stableNorm v i + 1e-3 * (1 / ((2:ℕ):ℝ)) := by
    unfold postPipeline smoothStep switchStep tempStep mixUnif
    rw [if_neg (lt_irrefl (0:ℝ)), if_neg (show ¬((1:ℝ) ≠ 1) by simp)]
  have he : bayesTwo.log_post 0 = bayesTwo.log_post 1 := rfl
  have hd0 : 0 < v 0 - v 1 := by
    show 0 < ((1 - 0.05) * bayesTwo.log_post 0 + 0.05 * Lhyp 0) -
      ((1 - 0.05) * bayesTwo.log_post 1 + 0.05 * Lhyp 1)
    nlinarith [Lhyp_gap_pos]
  have hlt := stableNorm_lt_of_lt (v := v) (show v 1 < v 0 by linarith)
  have h0 := congrFun hc 0
  have h1 := congrFun hc 1
  rw [hdec, hbfun] at h0 h1
  have h0' : (1 - 1e-3) * stableNorm v 0 + 1e-3 * (1 / ((2:ℕ):ℝ)) =
      1 / ((2:ℕ):ℝ) := h0
  have h1' : (1 - 1e-3) * stableNorm v 1 + 1e-3 * (1 / ((2:ℕ):ℝ)) =
      1 / ((2:ℕ):ℝ) := h1
  have heq : stableNorm v 0 = stableNorm v 1 := by nlinarith [h0', h1']
  linarith

/-- Witness for C8 at the concrete scenario: the default `p_switch =
0.02` update lands strictly closer to uniform than the `p_switch = 0`
update. -/
theorem switch_mixing_witness :
    distUnif (bayesTwo.update () 0 0.05 0.02 1).1 <
      distUnif (bayesTwo.update () 0 0.05 0 1).1 :=
  switch_mixing_moves_toward_uniform.1 bayesTwo () 0 0.05 0.02 1 (by norm_num)
    (by norm_num) (show (1e-3:ℝ) < 1 by norm_num) (by norm_num)
    bayesTwo_ps0_not_uniform

end SAI
